import Mathlib

/-! Butteruino core timing (`trunk/Hardware/cores/butterfly/wiring.c`)

A shallow embedding of the timing core of the Butterfly Arduino port:
the timer 0 overflow handler, `millis`, `delay`, `delayMicroseconds`,
`CLKPR_Calibrate` and `init`.

Conventions of the embedding

* `unsigned long` is 32 bits wide and `unsigned int` is 16 bits wide on the
  AVR; values are natural numbers and every operation that can wrap is
  reduced modulo `2^32` resp. `2^16` explicitly.
* A C `while` loop is run by `whileLoop` with an explicit iteration budget;
  the result is `none` when the budget is used up before the loop condition
  turns false.
* `clockCyclesPerMicrosecond() * 1000UL` and `F_CPU` come from headers and
  the build; they are parameters (`cpm`, `F_CPU`) of the definitions.
-/

namespace Butteruino

/-! ## Machine arithmetic -/

/-- Number of values of an `unsigned long` (32 bits on the AVR). -/
def U32 : Nat := 4294967296

/-- Number of values of an `unsigned int` (16 bits on the AVR). -/
def U16 : Nat := 65536

/-- Unsigned 32-bit subtraction `a - b` of two 32-bit values. -/
def subU32 (a b : Nat) : Nat := (a + U32 - b) % U32

/-- Unsigned 16-bit subtraction `a - b` of two 16-bit values. -/
def subU16 (a b : Nat) : Nat := (a + U16 - b) % U16

/-- A C `while (cond) body` loop with an iteration budget: `none` when the
budget runs out while the condition still holds. -/
def whileLoop {σ : Type} (cond : σ → Bool) (body : σ → σ) : Nat → σ → Option σ
  | 0, _ => none
  | fuel + 1, s => if cond s then whileLoop cond body fuel (body s) else some s

/-! ## Clock accumulator: `SIGNAL(SIG_OVERFLOW0)` -/

/-- The two `volatile unsigned long` globals of `wiring.c`. -/
structure ClockState where
  timer0_clock_cycles : Nat
  timer0_millis : Nat
  deriving DecidableEq, Repr

/-- Body of the normalisation loop:
`timer0_clock_cycles -= cpm; timer0_millis++;`. -/
def overflowBody (cpm : Nat) (s : ClockState) : ClockState :=
  { timer0_clock_cycles := subU32 s.timer0_clock_cycles cpm
    timer0_millis := (s.timer0_millis + 1) % U32 }

/-- The timer 0 overflow handler, `cpm` standing for
`clockCyclesPerMicrosecond() * 1000UL`:
```
timer0_clock_cycles += 64UL * 256UL;
while (timer0_clock_cycles > cpm) { timer0_clock_cycles -= cpm; timer0_millis++; }
```
-/
def SIG_OVERFLOW0 (cpm : Nat) (fuel : Nat) (s : ClockState) : Option ClockState :=
  whileLoop (fun t => decide (t.timer0_clock_cycles > cpm)) (overflowBody cpm) fuel
    { s with timer0_clock_cycles := (s.timer0_clock_cycles + 64 * 256) % U32 }

/-- Run the overflow handler `n` times in a row, each run with budget `fuel`. -/
def overflowTicks (cpm : Nat) (fuel : Nat) : Nat → ClockState → Option ClockState
  | 0, s => some s
  | n + 1, s => (SIG_OVERFLOW0 cpm fuel s).bind (overflowTicks cpm fuel n)

/-! ## Machine state, `millis` -/

/-- The part of the machine that `millis` and `delayMicroseconds` touch:
the 8-bit status register `SREG` (bit 7 is the global interrupt enable
flag) and the clock globals. -/
structure Avr where
  SREG : Nat
  clock : ClockState
  deriving DecidableEq, Repr

/-- The registers named in `wiring.c`. -/
inductive Reg where
  | SREG | CLKPR | TCCR0A | TIMSK0 | TCCR1A | TCCR1B | TCCR2A | ADCSRA | UCSRB
  deriving DecidableEq, Repr

/-- Observable effects of the routines, in program order. -/
inductive Effect where
  /-- `cli()` was executed. -/
  | cli
  /-- `sei()` was executed. -/
  | sei
  /-- A value was stored to a register. -/
  | write (reg : Reg) (value : Nat)
  /-- `OSCCAL_Calibrate()` was called. -/
  | osccal
  /-- The busy loop ran `iterations` times while the status register held `sreg`. -/
  | busy (iterations : Nat) (sreg : Nat)
  deriving DecidableEq, Repr

/-- Global interrupt enable flag: bit 7 of the status register. -/
def interruptsEnabled (sreg : Nat) : Bool := sreg.testBit 7

/-- The instruction `cli`: clears bit 7 of the 8-bit `SREG`. -/
def cli (s : Avr) : Avr := { s with SREG := s.SREG &&& 0x7F }

/-- The function `millis`: returns the value read and the machine state at exit.
```
uint8_t oldSREG = SREG;  cli();  m = timer0_millis;  SREG = oldSREG;  return m;
```
-/
def millis (s : Avr) : Nat × Avr :=
  let oldSREG := s.SREG
  let s1 := cli s
  let m := s1.clock.timer0_millis
  let s2 := { s1 with SREG := oldSREG }
  (m, s2)

/-! ## `delay` -/

/-- The loop `while (millis() - start <= ms) ;` run against the values that
the successive calls of `millis()` return. The result is the index of the
reading at which the condition is false and the loop exits; `none` when the
loop is still spinning after the last reading. -/
def delayLoop (start ms : Nat) : List Nat → Option Nat
  | [] => none
  | r :: rs =>
    if subU32 r start ≤ ms then (delayLoop start ms rs).map (· + 1) else some 0

/-- The function `delay(ms)`: the first value returned by `millis()` is the
snapshot `start`, the others feed the loop. -/
def delay (ms : Nat) : List Nat → Option Nat
  | [] => none
  | start :: rs => delayLoop start ms rs

/-! ## `delayMicroseconds` -/

/-- The inline assembly `1: sbiw us,1 ; brne 1b`: decrement the 16-bit
counter, repeat while it is not zero. The result is the number of
iterations executed, counted from `done`. -/
def busyLoop : Nat → Nat → Nat → Option Nat
  | 0, _, _ => none
  | fuel + 1, us, done =>
    let us1 := subU16 us 1
    if us1 ≠ 0 then busyLoop fuel us1 (done + 1) else some (done + 1)

/-- Common tail of `delayMicroseconds`:
`oldSREG = SREG; cli(); <busy loop>; SREG = oldSREG;`. -/
def delayBusy (fuel us : Nat) (s : Avr) : Option (Avr × List Effect) :=
  let oldSREG := s.SREG
  let s1 := cli s
  (busyLoop fuel us 0).map fun n =>
    ({ s1 with SREG := oldSREG },
      [Effect.cli, Effect.busy n s1.SREG, Effect.write Reg.SREG oldSREG])

/-- The function `delayMicroseconds(us)` for a build with clock `F_CPU`:
the state at return and the effects, `none` when the busy loop outlives
the budget. A short-circuit return has no effect at all. -/
def delayMicroseconds (F_CPU fuel us : Nat) (s : Avr) : Option (Avr × List Effect) :=
  if F_CPU ≥ 16000000 then
    -- if (--us == 0) return;
    let us1 := subU16 us 1
    if us1 = 0 then some (s, []) else
    -- us <<= 2;
    let us2 := (us1 <<< 2) % U16
    -- us -= 2;
    let us3 := subU16 us2 2
    delayBusy fuel us3 s
  else
    -- if (--us == 0) return;
    let us1 := subU16 us 1
    if us1 = 0 then some (s, []) else
    -- if (--us == 0) return;
    let us2 := subU16 us1 1
    if us2 = 0 then some (s, []) else
    -- us <<= 1;
    let us3 := (us2 <<< 1) % U16
    -- us--;
    let us4 := subU16 us3 1
    delayBusy fuel us4 s

/-- Busy-loop iterations recorded in a list of effects. -/
def busyIterations : List Effect → Nat
  | [] => 0
  | Effect.busy n _ :: es => n + busyIterations es
  | _ :: es => busyIterations es

/-! ## `CLKPR_Calibrate` -/

/-- Bit number of the change-enable bit `CLKPCE` of `CLKPR` (from the AVR
device header). -/
def CLKPCE : Nat := 7

/-- The constant `B1000` of `binary.h`. -/
def B1000 : Nat := 8

/-- The constant `B0000` of `binary.h`. -/
def B0000 : Nat := 0

/-- The search loop
`while ((8000000/(1<<clkprx)) > F_CPU && clkprx < B1000) clkprx++;`
started at `clkprx = 0`. -/
def CLKPR_search (F_CPU fuel : Nat) : Option Nat :=
  whileLoop (fun clkprx => decide (8000000 / (1 <<< clkprx) > F_CPU) && decide (clkprx < B1000))
    (fun clkprx => clkprx + 1) fuel 0

/-- The backtracking step after the search:
```
if (clkprx < B1000 && clkprx > B0000)
  if ((F_CPU - 8000000/(1<<clkprx)) > (8000000/(1<<(clkprx-1)) - F_CPU)) clkprx--;
```
-/
def CLKPR_adjust (F_CPU clkprx : Nat) : Nat :=
  if clkprx < B1000 ∧ clkprx > B0000 then
    if (F_CPU : Int) - ((8000000 / (1 <<< clkprx) : Nat) : Int)
        > ((8000000 / (1 <<< (clkprx - 1)) : Nat) : Int) - (F_CPU : Int) then
      clkprx - 1
    else clkprx
  else clkprx

/-- The exponent `clkprx` that `CLKPR_Calibrate` has computed when it
reaches the register writes. -/
def CLKPR_exponent (F_CPU fuel : Nat) : Option Nat :=
  (CLKPR_search F_CPU fuel).map (CLKPR_adjust F_CPU)

/-- The function `CLKPR_Calibrate`: its two stores to the 8-bit register
`CLKPR`, `CLKPR = (1 << CLKPCE); CLKPR = clkprx;`. -/
def CLKPR_Calibrate (F_CPU fuel : Nat) : Option (List Effect) :=
  (CLKPR_exponent F_CPU fuel).map fun clkprx =>
    [Effect.write Reg.CLKPR ((1 <<< CLKPCE) % 256), Effect.write Reg.CLKPR (clkprx % 256)]

/-! ### The calibrator as the specification words it -/

/-- The least exponent `c` in `0..8` with `8000000 / 2^c ≤ F_CPU`, and `8`
when there is none. -/
def specStop (F_CPU : Nat) : Nat :=
  ((List.range 9).find? fun c => decide (8000000 / 2 ^ c ≤ F_CPU)).getD 8

/-- The exponent the specification asks for: one step back from `specStop`
when that is strictly inside the bounds and the lower exponent is strictly
closer to the target. -/
def specExponent (F_CPU : Nat) : Nat :=
  let c := specStop F_CPU
  if 0 < c ∧ c < 8 ∧
      (F_CPU : Int) - ((8000000 / 2 ^ c : Nat) : Int)
        > ((8000000 / 2 ^ (c - 1) : Nat) : Int) - (F_CPU : Int) then
    c - 1
  else c

/-- The distance `|8000000 / 2^k - F_CPU|` of the divided oscillator frequency
from the target. -/
def prescaleError (F_CPU k : Nat) : Nat :=
  Int.natAbs (((8000000 / 2 ^ k : Nat) : Int) - (F_CPU : Int))

/-! ## `delayMicroseconds`: the counter handed to the busy loop -/

/-- The value of `us` when `delayMicroseconds` reaches the busy loop, `none`
when the call returns before it (same statements as in
`delayMicroseconds`). -/
def loopCounter (F_CPU us : Nat) : Option Nat :=
  if F_CPU ≥ 16000000 then
    let us1 := subU16 us 1
    if us1 = 0 then none else
    let us2 := (us1 <<< 2) % U16
    some (subU16 us2 2)
  else
    let us1 := subU16 us 1
    if us1 = 0 then none else
    let us2 := subU16 us1 1
    if us2 = 0 then none else
    let us3 := (us2 <<< 1) % U16
    some (subU16 us3 1)

/-- Number of busy-loop iterations executed by `delayMicroseconds(us)`. -/
def delayIterations (F_CPU fuel us : Nat) (s : Avr) : Option Nat :=
  (delayMicroseconds F_CPU fuel us s).map fun r => busyIterations r.2

/-! ## A clock read once per tick -/

/-- The values `millis()` returns on `n` successive calls when the counter,
at `start` on entry, has advanced by exactly one between each call and the
next. -/
def tickClock (start n : Nat) : List Nat :=
  (List.range n).map fun j => (start + (j + 1)) % U32

/-! ## `init` -/

/-- Bit numbers of the AVR device header (ATmega169). -/
def WGM01 : Nat := 3

/-- Bit number `WGM00` of `TCCR0A`. -/
def WGM00 : Nat := 6

/-- Bit number `CS01` of `TCCR0A`. -/
def CS01 : Nat := 1

/-- Bit number `CS00` of `TCCR0A`. -/
def CS00 : Nat := 0

/-- Bit number `TOIE0` of `TIMSK0`. -/
def TOIE0 : Nat := 0

/-- Bit number `CS11` of `TCCR1B`. -/
def CS11 : Nat := 1

/-- Bit number `CS10` of `TCCR1B`. -/
def CS10 : Nat := 0

/-- Bit number `WGM10` of `TCCR1A`. -/
def WGM10 : Nat := 0

/-- Bit number `CS22` of `TCCR2A`. -/
def CS22 : Nat := 2

/-- Bit number `WGM20` of `TCCR2A`. -/
def WGM20 : Nat := 6

/-- Bit number `ADPS0` of `ADCSRA`, the lowest bit of the prescale field
`ADPS2:0`. -/
def ADPS0 : Nat := 0

/-- Bit number `ADEN` of `ADCSRA`. -/
def ADEN : Nat := 7

/-- The 8-bit registers and the effects recorded so far. -/
structure Mcu where
  regs : Reg → Nat
  trace : List Effect

/-- The register file with register `r` holding `v`. -/
def setReg (regs : Reg → Nat) (r : Reg) (v : Nat) : Reg → Nat :=
  fun q => if q = r then v else regs q

/-- A store `r = v;` to a register. -/
def store (r : Reg) (v : Nat) (m : Mcu) : Mcu :=
  { regs := setReg m.regs r v, trace := m.trace ++ [Effect.write r v] }

/-- Modelled from the spec: the macro `sbi` of `wiring_private.h`, which is
not among the sources; an unconditional register write that sets one bit,
`reg |= (1 << bit)`. -/
def sbi (r : Reg) (bit : Nat) (m : Mcu) : Mcu :=
  store r ((m.regs r ||| (1 <<< bit)) % 256) m

/-- The instruction `sei`: sets bit 7 of `SREG`. -/
def sei (m : Mcu) : Mcu :=
  { regs := setReg m.regs Reg.SREG (m.regs Reg.SREG ||| 0x80),
    trace := m.trace ++ [Effect.sei] }

/-- A call of the external `OSCCAL_Calibrate()`; what it does to the
registers is the parameter `osc`. -/
def callOsccal (osc : (Reg → Nat) → (Reg → Nat)) (m : Mcu) : Mcu :=
  { regs := osc m.regs, trace := m.trace ++ [Effect.osccal] }

/-- Carry out a list of effects on the machine: a write stores its value,
every effect is recorded. -/
def runEffects : List Effect → Mcu → Mcu
  | [], m => m
  | Effect.write r v :: es, m => runEffects es (store r v m)
  | e :: es, m => runEffects es { m with trace := m.trace ++ [e] }

/-- The loop `int adpsx = 0; while ((F_CPU/(1<<++adpsx)) > 200000) ;`,
entered with the current `adpsx`. `1 << adpsx` is an `int` of 16 bits, so
the shift is defined up to `adpsx = 14` only: the result is `none` when the
search leaves that range, and when the budget runs out. -/
def ADC_search (F_CPU : Nat) : Nat → Nat → Option Nat
  | 0, _ => none
  | fuel + 1, adpsx =>
    let adpsx1 := adpsx + 1
    if adpsx1 > 14 then none
    else if F_CPU / (1 <<< adpsx1) > 200000 then ADC_search F_CPU fuel adpsx1
    else some adpsx1

/-- The value stored by
`ADCSRA = (ADCSRA&~(1<<ADPS0|1<<ADPS0|1<<ADPS0)) | adpsx;`
for the prior register value `old`: the complement is taken in a 16-bit
`int`, the store keeps the low 8 bits. -/
def ADCSRA_prescale (old adpsx : Nat) : Nat :=
  ((old &&& (65535 - ((1 <<< ADPS0) ||| (1 <<< ADPS0) ||| (1 <<< ADPS0)))) ||| adpsx) % 256

/-- First part of `init`, up to the configuration of timer 2; `osc` is the
effect of the external `OSCCAL_Calibrate` on the registers. -/
def initTimers (F_CPU fuel : Nat) (osc : (Reg → Nat) → (Reg → Nat)) (m : Mcu) : Option Mcu :=
  -- CLKPR_Calibrate();
  (CLKPR_Calibrate F_CPU fuel).map fun es =>
  let m1 := runEffects es m
  -- OSCCAL_Calibrate();
  let m2 := callOsccal osc m1
  -- sei();
  let m3 := sei m2
  -- timer 0: mode, prescale factor 64, overflow interrupt
  let m4 := sbi Reg.TCCR0A WGM01 m3
  let m5 := sbi Reg.TCCR0A WGM00 m4
  let m6 := sbi Reg.TCCR0A CS01 m5
  let m7 := sbi Reg.TCCR0A CS00 m6
  let m8 := sbi Reg.TIMSK0 TOIE0 m7
  -- timer 1
  let m9 := sbi Reg.TCCR1B CS11 m8
  let m10 := sbi Reg.TCCR1B CS10 m9
  let m11 := sbi Reg.TCCR1A WGM10 m10
  -- timer 2
  let m12 := sbi Reg.TCCR2A CS22 m11
  sbi Reg.TCCR2A WGM20 m12

/-- Second part of `init`, from the ADC prescale search to the end. -/
def initADC (F_CPU fuel : Nat) (m : Mcu) : Option Mcu :=
  -- int adpsx = 0; while ((F_CPU/(1<<++adpsx))>200000) ;
  (ADC_search F_CPU fuel 0).map fun adpsx =>
  -- ADCSRA = (ADCSRA&~(1<<ADPS0|1<<ADPS0|1<<ADPS0)) | adpsx;
  let m1 := store Reg.ADCSRA (ADCSRA_prescale (m.regs Reg.ADCSRA) adpsx) m
  -- sbi(ADCSRA, ADEN);
  let m2 := sbi Reg.ADCSRA ADEN m1
  -- UCSRB = 0;
  store Reg.UCSRB 0 m2

/-- The function `init`, for a build with clock `F_CPU`: its two parts in
sequence. -/
def init (F_CPU fuel : Nat) (osc : (Reg → Nat) → (Reg → Nat)) (m : Mcu) : Option Mcu :=
  (initTimers F_CPU fuel osc m).bind (initADC F_CPU fuel)

/-- Number of stores to register `r` among the effects. -/
def writesTo (r : Reg) : List Effect → Nat
  | [] => 0
  | Effect.write q _ :: es => (if q = r then 1 else 0) + writesTo r es
  | _ :: es => writesTo r es

/-! ## Loop budget lemmas -/

theorem whileLoop_fuel_add {σ : Type} (cond : σ → Bool) (body : σ → σ) (k : Nat) :
    ∀ (fuel : Nat) (s r : σ), whileLoop cond body fuel s = some r →
      whileLoop cond body (fuel + k) s = some r := by
  intro fuel
  induction fuel with
  | zero => intro s r h; simp [whileLoop] at h
  | succ n ih =>
    intro s r h
    rw [Nat.add_right_comm]
    simp only [whileLoop] at h ⊢
    by_cases hc : cond s = true
    · simp only [hc, if_true] at h ⊢
      exact ih _ _ h
    · simp only [hc] at h ⊢
      exact h

theorem SIG_OVERFLOW0_fuel_add (cpm fuel k : Nat) (s r : ClockState)
    (h : SIG_OVERFLOW0 cpm fuel s = some r) : SIG_OVERFLOW0 cpm (fuel + k) s = some r :=
  whileLoop_fuel_add _ _ k fuel _ r h

theorem overflowTicks_fuel_add (cpm fuel k : Nat) :
    ∀ (n : Nat) (s r : ClockState), overflowTicks cpm fuel n s = some r →
      overflowTicks cpm (fuel + k) n s = some r := by
  intro n
  induction n with
  | zero => intro s r h; simpa [overflowTicks] using h
  | succ n ih =>
    intro s r h
    simp only [overflowTicks] at h ⊢
    cases hs : SIG_OVERFLOW0 cpm fuel s with
    | none => simp [hs] at h
    | some t =>
      rw [hs] at h
      rw [SIG_OVERFLOW0_fuel_add cpm fuel k s t hs]
      exact ih t r h

/-! ## Clock accumulator -/

set_option maxRecDepth 100000 in
theorem overflowTicks_8MHz_125 :
    overflowTicks 8000 4 125 ⟨0, 0⟩ = some ⟨8000, 255⟩ := by decide

/-- C1 (the code departs from the claim): at 8 MHz (`cpm = 8000`) 125 timer
overflows from the zero state are exactly 256 ms worth of cycles
(`125 * 16384 = 256 * 8000`), but the handler has counted 255 ms only,
whatever budget beyond four loop tests it is given: the strict `>` of the
loop leaves a whole millisecond in the remainder. -/
theorem overflowTicks_lags_at_exact_multiple (k : Nat) :
    overflowTicks 8000 (4 + k) 125 ⟨0, 0⟩ = some ⟨8000, 255⟩ ∧
      125 * (64 * 256) / 8000 = 256 :=
  ⟨overflowTicks_fuel_add 8000 4 k 125 _ _ overflowTicks_8MHz_125, by decide⟩

set_option maxRecDepth 100000 in
theorem overflowTicks_8MHz_124 :
    overflowTicks 8000 4 124 ⟨0, 0⟩ = some ⟨7616, 253⟩ := by decide

theorem SIG_OVERFLOW0_8MHz_full : SIG_OVERFLOW0 8000 4 ⟨7616, 253⟩ = some ⟨8000, 255⟩ := by
  decide

/-- C2 (the code departs from the claim): the state `(7616, 253)` is the one
the 8 MHz build is in after 124 overflows from zero; one more invocation of
the handler ends with `timer0_clock_cycles = 8000 = cpm`, which is not
strictly below `cpm`. -/
theorem SIG_OVERFLOW0_remainder_reaches_cpm (k : Nat) :
    overflowTicks 8000 (4 + k) 124 ⟨0, 0⟩ = some ⟨7616, 253⟩ ∧
      SIG_OVERFLOW0 8000 (4 + k) ⟨7616, 253⟩ = some ⟨8000, 255⟩ ∧ ¬ (8000 < 8000) :=
  ⟨overflowTicks_fuel_add 8000 4 k 124 _ _ overflowTicks_8MHz_124,
    SIG_OVERFLOW0_fuel_add 8000 4 k _ _ SIG_OVERFLOW0_8MHz_full, by decide⟩

/-! ## `delay` -/

theorem subU32_cast (a b : Nat) (ha : a < U32) (hb : b < U32) :
    ((subU32 a b : Nat) : Int) = ((a : Int) - (b : Int)) % 4294967296 := by
  simp only [subU32, U32] at *
  omega

theorem subU32_le_zero_iff (a b : Nat) (ha : a < U32) (hb : b < U32) :
    subU32 a b ≤ 0 ↔ a = b := by
  simp only [subU32, U32] at *
  omega

/-- The loop of `delay` exits at index `k` exactly when reading `k` is the
first one whose wrapped distance from `start` exceeds `ms`. -/
theorem delayLoop_eq_some_iff (start ms : Nat) :
    ∀ (rs : List Nat) (k : Nat), delayLoop start ms rs = some k ↔
      (∃ r, rs[k]? = some r ∧ ms < subU32 r start) ∧
        ∀ j, j < k → ∀ r, rs[j]? = some r → subU32 r start ≤ ms := by
  intro rs
  induction rs with
  | nil => intro k; simp [delayLoop]
  | cons r rs ih =>
    intro k
    by_cases h : subU32 r start ≤ ms
    · cases k with
      | zero =>
        simp only [delayLoop, h, if_true, List.getElem?_cons_zero]
        constructor
        · intro h0
          simp at h0
        · rintro ⟨⟨r1, h1, h2⟩, -⟩
          simp only [Option.some.injEq] at h1
          subst h1
          omega
      | succ k =>
        simp only [delayLoop, h, if_true, List.getElem?_cons_succ]
        rw [Option.map_eq_some', ]
        constructor
        · rintro ⟨a, ha, hk⟩
          have hak : a = k := by omega
          subst hak
          obtain ⟨h1, h2⟩ := (ih a).1 ha
          refine ⟨h1, ?_⟩
          intro j hj r1 hr1
          cases j with
          | zero =>
            simp only [List.getElem?_cons_zero, Option.some.injEq] at hr1
            subst hr1
            exact h
          | succ j =>
            simp only [List.getElem?_cons_succ] at hr1
            exact h2 j (by omega) r1 hr1
        · rintro ⟨h1, h2⟩
          refine ⟨k, (ih k).2 ⟨h1, ?_⟩, rfl⟩
          intro j hj r1 hr1
          exact h2 (j + 1) (by omega) r1 (by simpa using hr1)
    · cases k with
      | zero =>
        simp only [delayLoop, h, if_false, List.getElem?_cons_zero]
        constructor
        · intro _
          exact ⟨⟨r, rfl, by omega⟩, fun j hj => absurd hj (Nat.not_lt_zero j)⟩
        · intro _
          trivial
      | succ k =>
        simp only [delayLoop, h, if_false]
        constructor
        · intro h0
          simp at h0
        · rintro ⟨-, h2⟩
          exact absurd (h2 0 (Nat.succ_pos k) r (by simp)) h

/-- C3: whatever values `millis()` returns (`start` first, then `rs`), if
`delay ms` returns at reading number `k` of its loop, then that reading `r`
satisfies `(r - start) mod 2^32 > ms` (so the reader has advanced by at
least `ms`, the difference being taken modulo `2^32`, which covers a wrap
of the counter), and every earlier reading was still within `ms` of the
snapshot. -/
theorem delay_returns_only_after_ms (start ms : Nat) (rs : List Nat) (k : Nat)
    (hstart : start < U32) (hrs : ∀ r ∈ rs, r < U32)
    (h : delay ms (start :: rs) = some k) :
    ∃ r, rs[k]? = some r ∧
      (ms : Int) < ((r : Int) - (start : Int)) % 4294967296 ∧
      (ms : Int) ≤ ((r : Int) - (start : Int)) % 4294967296 ∧
      ∀ j, j < k → ∀ q, rs[j]? = some q →
        ((q : Int) - (start : Int)) % 4294967296 ≤ (ms : Int) := by
  simp only [delay] at h
  obtain ⟨⟨r, hr, hlt⟩, hbefore⟩ := (delayLoop_eq_some_iff start ms rs k).1 h
  have hrU : r < U32 := hrs r (List.getElem?_mem hr)
  have hc := subU32_cast r start hrU hstart
  refine ⟨r, hr, by omega, by omega, ?_⟩
  intro j hj q hq
  have hqU : q < U32 := hrs q (List.getElem?_mem hq)
  have hc2 := subU32_cast q start hqU hstart
  have := hbefore j hj q hq
  omega

theorem delay_returns_only_after_ms_witness :
    (4294967294 < U32 ∧ (∀ r ∈ [4294967295, 0, 1, 2, 3], r < U32) ∧
      delay 3 (4294967294 :: [4294967295, 0, 1, 2, 3]) = some 3) ∧
    ∃ r : Nat, [4294967295, 0, 1, 2, 3][3]? = some r ∧
      ((3 : Nat) : Int) < ((r : Int) - ((4294967294 : Nat) : Int)) % 4294967296 ∧
      ((3 : Nat) : Int) ≤ ((r : Int) - ((4294967294 : Nat) : Int)) % 4294967296 ∧
      ∀ j, j < 3 → ∀ q : Nat, [4294967295, 0, 1, 2, 3][j]? = some q →
        ((q : Int) - ((4294967294 : Nat) : Int)) % 4294967296 ≤ ((3 : Nat) : Int) :=
  ⟨⟨by decide, by decide, by decide⟩,
    delay_returns_only_after_ms 4294967294 3 [4294967295, 0, 1, 2, 3] 3
      (by decide) (by decide) (by decide)⟩

/-- C4: `delay(0)` returns at loop reading number `k` exactly when reading
`k` is the first value of `millis()` that differs from the entry snapshot:
all earlier readings equal the snapshot (the loop keeps spinning on them)
and the first differing one ends the call. -/
theorem delay_zero_exit_iff (start : Nat) (rs : List Nat) (k : Nat)
    (hstart : start < U32) (hrs : ∀ r ∈ rs, r < U32) :
    delay 0 (start :: rs) = some k ↔
      (∃ r, rs[k]? = some r ∧ r ≠ start) ∧ ∀ j, j < k → rs[j]? = some start := by
  simp only [delay]
  rw [delayLoop_eq_some_iff]
  constructor
  · rintro ⟨⟨r, hr, hlt⟩, hbefore⟩
    have hrU : r < U32 := hrs r (List.getElem?_mem hr)
    have hne : r ≠ start := by
      intro he
      have := (subU32_le_zero_iff r start hrU hstart).2 he
      omega
    refine ⟨⟨r, hr, hne⟩, ?_⟩
    intro j hj
    have hk : k < rs.length := by
      rcases Nat.lt_or_ge k rs.length with h | h
      · exact h
      · rw [List.getElem?_eq_none h] at hr
        simp at hr
    have hjl : j < rs.length := by omega
    have hq : rs[j]? = some rs[j] := List.getElem?_eq_getElem hjl
    have hqU : rs[j] < U32 := hrs _ (List.getElem?_mem hq)
    have := hbefore j hj _ hq
    rw [hq, (subU32_le_zero_iff _ start hqU hstart).1 this]
  · rintro ⟨⟨r, hr, hne⟩, hbefore⟩
    have hrU : r < U32 := hrs r (List.getElem?_mem hr)
    refine ⟨⟨r, hr, ?_⟩, ?_⟩
    · have := subU32_le_zero_iff r start hrU hstart
      omega
    · intro j hj q hq
      rw [hbefore j hj] at hq
      simp only [Option.some.injEq] at hq
      subst hq
      exact (subU32_le_zero_iff start start hstart hstart).2 rfl

theorem delay_zero_exit_iff_witness :
    (4294967295 < U32 ∧ ∀ r ∈ [4294967295, 4294967295, 0, 1], r < U32) ∧
    (delay 0 (4294967295 :: [4294967295, 4294967295, 0, 1]) = some 2 ↔
      (∃ r, [4294967295, 4294967295, 0, 1][2]? = some r ∧ r ≠ 4294967295) ∧
        ∀ j, j < 2 → [4294967295, 4294967295, 0, 1][j]? = some 4294967295) :=
  ⟨⟨by decide, by decide⟩,
    delay_zero_exit_iff 4294967295 [4294967295, 4294967295, 0, 1] 2 (by decide) (by decide)⟩

/-! ## `millis` -/

theorem cli_clears_flag (s : Avr) : interruptsEnabled (cli s).SREG = false := by
  simp only [interruptsEnabled, cli, Nat.testBit_and]
  have h : Nat.testBit 0x7F 7 = false := by decide
  simp [h]

/-- C5: for every machine state (any clock globals, any status register,
interrupt flag set or clear) `millis` returns exactly `timer0_millis` and
exits in the state it was entered in: both clock globals and the whole
status register are as at entry. The counter is read in the state behind
`cli`, where the interrupt flag is clear. -/
theorem millis_pure_observation (s : Avr) :
    (millis s).1 = s.clock.timer0_millis ∧
      (millis s).2.clock.timer0_millis = s.clock.timer0_millis ∧
      (millis s).2.clock.timer0_clock_cycles = s.clock.timer0_clock_cycles ∧
      (millis s).2.SREG = s.SREG ∧
      interruptsEnabled (millis s).2.SREG = interruptsEnabled s.SREG ∧
      (millis s).2 = s ∧
      (millis s).1 = (cli s).clock.timer0_millis ∧
      interruptsEnabled (cli s).SREG = false := by
  refine ⟨rfl, rfl, rfl, rfl, rfl, ?_, rfl, cli_clears_flag s⟩
  cases s
  rfl

/-! ## `delayMicroseconds` -/

theorem busyLoop_done_lt :
    ∀ (fuel us done n : Nat), busyLoop fuel us done = some n → done < n := by
  intro fuel
  induction fuel with
  | zero => intro us done n h; simp [busyLoop] at h
  | succ f ih =>
    intro us done n h
    simp only [busyLoop] at h
    by_cases h1 : subU16 us 1 ≠ 0
    · rw [if_pos h1] at h
      have := ih _ _ _ h
      omega
    · rw [if_neg h1] at h
      simp only [Option.some.injEq] at h
      omega

/-- The busy loop started with a non-zero 16-bit counter `us` runs `us`
times; started with zero it runs `65536` times. -/
theorem busyLoop_eq :
    ∀ (fuel us done : Nat), us < U16 → (if us = 0 then U16 else us) ≤ fuel →
      busyLoop fuel us done = some (done + if us = 0 then U16 else us) := by
  intro fuel
  induction fuel with
  | zero =>
    intro us done hus hf
    simp only [U16] at *
    split at hf <;> omega
  | succ f ih =>
    intro us done hus hf
    simp only [busyLoop]
    by_cases h1 : subU16 us 1 ≠ 0
    · rw [if_pos h1]
      have hlt : subU16 us 1 < U16 := by
        simp only [subU16, U16]
        omega
      have hf2 : (if subU16 us 1 = 0 then U16 else subU16 us 1) ≤ f := by
        rw [if_neg h1]
        simp only [subU16, U16] at *
        split at hf <;> omega
      rw [ih _ _ hlt hf2, if_neg h1]
      simp only [Option.some.injEq, subU16, U16] at *
      split <;> omega
    · rw [if_neg h1]
      simp only [Option.some.injEq, subU16, U16] at *
      split <;> omega

theorem subU16_lt (a b : Nat) : subU16 a b < U16 := by
  simp only [subU16, U16]
  omega

theorem delayBusy_some (fuel us : Nat) (s s1 : Avr) (tr : List Effect)
    (h : delayBusy fuel us s = some (s1, tr)) :
    s1 = s ∧ ∃ n, 0 < n ∧
      tr = [Effect.cli, Effect.busy n (cli s).SREG, Effect.write Reg.SREG s.SREG] := by
  simp only [delayBusy, Option.map_eq_some', Prod.mk.injEq] at h
  obtain ⟨n, hn, hs, htr⟩ := h
  refine ⟨?_, n, busyLoop_done_lt _ _ _ _ hn, htr.symm⟩
  rw [← hs]
  cases s
  rfl

theorem delayBusy_returns (fuel us : Nat) (s : Avr) (hus : us < U16) (hf : U16 ≤ fuel) :
    ∃ tr, delayBusy fuel us s = some (s, tr) := by
  have hb := busyLoop_eq fuel us 0 hus (by split <;> omega)
  refine ⟨[Effect.cli, Effect.busy (0 + if us = 0 then U16 else us) (cli s).SREG,
    Effect.write Reg.SREG s.SREG], ?_⟩
  simp only [delayBusy, hb, Option.map_some']
  cases s
  rfl

/-- C6: on the high-frequency path `delayMicroseconds(1)` returns at once:
same state, no effect (no `cli`, no write to `SREG`), zero busy-loop
iterations; on the low-frequency path so do `delayMicroseconds(1)` and
`delayMicroseconds(2)`. For every other 16-bit argument on the respective
path a returning call has executed `cli` and at least one busy-loop
iteration, so no other argument short-circuits. -/
theorem delayMicroseconds_short_circuit (F_CPU fuel us : Nat) (s : Avr) (hus : us < U16) :
    (16000000 ≤ F_CPU →
      delayMicroseconds F_CPU fuel 1 s = some (s, []) ∧ busyIterations [] = 0 ∧
      (us ≠ 1 → ∀ s1 tr, delayMicroseconds F_CPU fuel us s = some (s1, tr) →
        Effect.cli ∈ tr ∧ 0 < busyIterations tr)) ∧
    (F_CPU < 16000000 →
      delayMicroseconds F_CPU fuel 1 s = some (s, []) ∧
      delayMicroseconds F_CPU fuel 2 s = some (s, []) ∧ busyIterations [] = 0 ∧
      (us ≠ 1 → us ≠ 2 → ∀ s1 tr, delayMicroseconds F_CPU fuel us s = some (s1, tr) →
        Effect.cli ∈ tr ∧ 0 < busyIterations tr)) := by
  constructor
  · intro hF
    refine ⟨by simp [delayMicroseconds, hF, subU16, U16], rfl, ?_⟩
    intro h1 s1 tr h
    have hne : subU16 us 1 ≠ 0 := by
      simp only [subU16, U16] at *
      omega
    simp only [delayMicroseconds, ge_iff_le, hF, if_true, hne, if_false] at h
    obtain ⟨-, n, hn, rfl⟩ := delayBusy_some _ _ _ _ _ h
    simp only [busyIterations, List.mem_cons, true_or, true_and]
    omega
  · intro hF
    have hF2 : ¬ (16000000 ≤ F_CPU) := by omega
    refine ⟨by simp [delayMicroseconds, hF2, subU16, U16],
      by simp [delayMicroseconds, hF2, subU16, U16], rfl, ?_⟩
    intro h1 h2 s1 tr h
    have hne : subU16 us 1 ≠ 0 := by
      simp only [subU16, U16] at *
      omega
    have hne2 : subU16 (subU16 us 1) 1 ≠ 0 := by
      simp only [subU16, U16] at *
      omega
    simp only [delayMicroseconds, ge_iff_le, hF2, if_false, hne, hne2] at h
    obtain ⟨-, n, hn, rfl⟩ := delayBusy_some _ _ _ _ _ h
    simp only [busyIterations, List.mem_cons, true_or, true_and]
    omega

theorem delayMicroseconds_short_circuit_witness :
    (0 : Nat) < U16 ∧
    ((16000000 ≤ 16000000 →
      delayMicroseconds 16000000 70000 1 ⟨0x80, ⟨0, 0⟩⟩ = some (⟨0x80, ⟨0, 0⟩⟩, []) ∧
      busyIterations [] = 0 ∧
      ((0 : Nat) ≠ 1 → ∀ s1 tr,
        delayMicroseconds 16000000 70000 0 ⟨0x80, ⟨0, 0⟩⟩ = some (s1, tr) →
        Effect.cli ∈ tr ∧ 0 < busyIterations tr)) ∧
    (16000000 < 16000000 →
      delayMicroseconds 16000000 70000 1 ⟨0x80, ⟨0, 0⟩⟩ = some (⟨0x80, ⟨0, 0⟩⟩, []) ∧
      delayMicroseconds 16000000 70000 2 ⟨0x80, ⟨0, 0⟩⟩ = some (⟨0x80, ⟨0, 0⟩⟩, []) ∧
      busyIterations [] = 0 ∧
      ((0 : Nat) ≠ 1 → (0 : Nat) ≠ 2 → ∀ s1 tr,
        delayMicroseconds 16000000 70000 0 ⟨0x80, ⟨0, 0⟩⟩ = some (s1, tr) →
        Effect.cli ∈ tr ∧ 0 < busyIterations tr))) :=
  ⟨by decide, delayMicroseconds_short_circuit 16000000 70000 0 ⟨0x80, ⟨0, 0⟩⟩ (by decide)⟩

/-- C7: for every argument, either frequency path and every entry
state (interrupt flag set or clear), a returning `delayMicroseconds` leaves
the status register (indeed the whole state) as at entry, and every busy
loop it ran was run behind `cli`, with the interrupt flag clear, the last
effect being the store of the saved value to `SREG`; with a budget of
`65536` iterations the call does return. -/
theorem delayMicroseconds_restores_SREG (F_CPU fuel us : Nat) (s : Avr) :
    (∀ s1 tr, delayMicroseconds F_CPU fuel us s = some (s1, tr) →
      s1.SREG = s.SREG ∧ s1 = s ∧
      ∀ n v, Effect.busy n v ∈ tr →
        interruptsEnabled v = false ∧
        tr = [Effect.cli, Effect.busy n v, Effect.write Reg.SREG s.SREG]) ∧
    (U16 ≤ fuel → ∃ tr, delayMicroseconds F_CPU fuel us s = some (s, tr)) := by
  have key : ∀ (c : Nat) (s1 : Avr) (tr : List Effect),
      delayBusy fuel c s = some (s1, tr) →
      s1.SREG = s.SREG ∧ s1 = s ∧
      ∀ n v, Effect.busy n v ∈ tr →
        interruptsEnabled v = false ∧
        tr = [Effect.cli, Effect.busy n v, Effect.write Reg.SREG s.SREG] := by
    intro c s1 tr h
    obtain ⟨hs, m, -, rfl⟩ := delayBusy_some _ _ _ _ _ h
    refine ⟨by rw [hs], hs, ?_⟩
    intro n v hmem
    simp only [List.mem_cons, List.mem_singleton, Effect.busy.injEq, List.not_mem_nil,
      or_false, false_or, reduceCtorEq] at hmem
    obtain ⟨rfl, rfl⟩ := hmem
    exact ⟨cli_clears_flag s, rfl⟩
  have triv : ∀ (s1 : Avr) (tr : List Effect), some (s, ([] : List Effect)) = some (s1, tr) →
      s1.SREG = s.SREG ∧ s1 = s ∧
      ∀ n v, Effect.busy n v ∈ tr →
        interruptsEnabled v = false ∧
        tr = [Effect.cli, Effect.busy n v, Effect.write Reg.SREG s.SREG] := by
    intro s1 tr h
    simp only [Option.some.injEq, Prod.mk.injEq] at h
    obtain ⟨rfl, rfl⟩ := h
    refine ⟨rfl, rfl, ?_⟩
    intro n v hmem
    simp at hmem
  simp only [delayMicroseconds]
  by_cases hF : F_CPU ≥ 16000000
  · rw [if_pos hF]
    by_cases h1 : subU16 us 1 = 0
    · rw [if_pos h1]
      exact ⟨triv, fun _ => ⟨[], rfl⟩⟩
    · rw [if_neg h1]
      exact ⟨key _, fun hf => delayBusy_returns _ _ _ (subU16_lt _ _) hf⟩
  · rw [if_neg hF]
    by_cases h1 : subU16 us 1 = 0
    · rw [if_pos h1]
      exact ⟨triv, fun _ => ⟨[], rfl⟩⟩
    · rw [if_neg h1]
      by_cases h2 : subU16 (subU16 us 1) 1 = 0
      · rw [if_pos h2]
        exact ⟨triv, fun _ => ⟨[], rfl⟩⟩
      · rw [if_neg h2]
        exact ⟨key _, fun hf => delayBusy_returns _ _ _ (subU16_lt _ _) hf⟩

theorem delayMicroseconds_restores_SREG_witness :
    (U16 ≤ 65536 ∧
      delayMicroseconds 8000000 65536 3 ⟨0x80, ⟨5, 7⟩⟩ =
        some (⟨0x80, ⟨5, 7⟩⟩, [Effect.cli, Effect.busy 1 0, Effect.write Reg.SREG 0x80])) ∧
    (∃ tr, delayMicroseconds 8000000 65536 3 ⟨0x80, ⟨5, 7⟩⟩ = some (⟨0x80, ⟨5, 7⟩⟩, tr)) ∧
    ((⟨0x80, ⟨5, 7⟩⟩ : Avr).SREG = (⟨0x80, ⟨5, 7⟩⟩ : Avr).SREG ∧
      (⟨0x80, ⟨5, 7⟩⟩ : Avr) = ⟨0x80, ⟨5, 7⟩⟩ ∧
      ∀ n v, Effect.busy n v ∈ [Effect.cli, Effect.busy 1 0, Effect.write Reg.SREG 0x80] →
        interruptsEnabled v = false ∧
        [Effect.cli, Effect.busy 1 0, Effect.write Reg.SREG 0x80] =
          [Effect.cli, Effect.busy n v,
            Effect.write Reg.SREG (⟨0x80, ⟨5, 7⟩⟩ : Avr).SREG]) :=
  ⟨⟨by decide, by decide⟩,
    (delayMicroseconds_restores_SREG 8000000 65536 3 ⟨0x80, ⟨5, 7⟩⟩).2 (by decide),
    (delayMicroseconds_restores_SREG 8000000 65536 3 ⟨0x80, ⟨5, 7⟩⟩).1 _ _ (by decide)⟩

/-! ## `CLKPR_Calibrate` -/

theorem specStop_unfold (F : Nat) : specStop F =
    if 8000000 ≤ F then 0 else if 4000000 ≤ F then 1 else if 2000000 ≤ F then 2
    else if 1000000 ≤ F then 3 else if 500000 ≤ F then 4 else if 250000 ≤ F then 5
    else if 125000 ≤ F then 6 else if 62500 ≤ F then 7 else 8 := by
  have hdef : specStop F =
      ((List.range 9).find? fun c => decide (8000000 / 2 ^ c ≤ F)).getD 8 := rfl
  simp only [List.range, List.range.loop, List.find?] at hdef
  norm_num at hdef
  rw [hdef]
  by_cases h0 : 8000000 ≤ F
  · simp [h0]
  by_cases h1 : 4000000 ≤ F
  · simp [h0, h1]
  by_cases h2 : 2000000 ≤ F
  · simp [h0, h1, h2]
  by_cases h3 : 1000000 ≤ F
  · simp [h0, h1, h2, h3]
  by_cases h4 : 500000 ≤ F
  · simp [h0, h1, h2, h3, h4]
  by_cases h5 : 250000 ≤ F
  · simp [h0, h1, h2, h3, h4, h5]
  by_cases h6 : 125000 ≤ F
  · simp [h0, h1, h2, h3, h4, h5, h6]
  by_cases h7 : 62500 ≤ F
  · simp [h0, h1, h2, h3, h4, h5, h6, h7]
  by_cases h8 : 31250 ≤ F <;> simp [h0, h1, h2, h3, h4, h5, h6, h7, h8]

theorem CLKPR_search_unfold (F : Nat) : CLKPR_search F 9 = some
    (if 8000000 ≤ F then 0 else if 4000000 ≤ F then 1 else if 2000000 ≤ F then 2
    else if 1000000 ≤ F then 3 else if 500000 ≤ F then 4 else if 250000 ≤ F then 5
    else if 125000 ≤ F then 6 else if 62500 ≤ F then 7 else 8) := by
  have hdef : CLKPR_search F 9 = whileLoop
      (fun clkprx => decide (8000000 / (1 <<< clkprx) > F) && decide (clkprx < B1000))
      (fun clkprx => clkprx + 1) 9 0 := rfl
  simp only [whileLoop, B1000] at hdef
  norm_num [Nat.shiftLeft_eq] at hdef
  rw [hdef]
  by_cases h0 : 8000000 ≤ F
  · rw [if_neg (by omega), if_pos h0]
  rw [if_pos (by omega), if_neg h0]
  by_cases h1 : 4000000 ≤ F
  · rw [if_neg (by omega), if_pos h1]
  rw [if_pos (by omega), if_neg h1]
  by_cases h2 : 2000000 ≤ F
  · rw [if_neg (by omega), if_pos h2]
  rw [if_pos (by omega), if_neg h2]
  by_cases h3 : 1000000 ≤ F
  · rw [if_neg (by omega), if_pos h3]
  rw [if_pos (by omega), if_neg h3]
  by_cases h4 : 500000 ≤ F
  · rw [if_neg (by omega), if_pos h4]
  rw [if_pos (by omega), if_neg h4]
  by_cases h5 : 250000 ≤ F
  · rw [if_neg (by omega), if_pos h5]
  rw [if_pos (by omega), if_neg h5]
  by_cases h6 : 125000 ≤ F
  · rw [if_neg (by omega), if_pos h6]
  rw [if_pos (by omega), if_neg h6]
  by_cases h7 : 62500 ≤ F
  · rw [if_neg (by omega), if_pos h7]
  rw [if_pos (by omega), if_neg h7]

theorem CLKPR_search_nine (F : Nat) : CLKPR_search F 9 = some (specStop F) := by
  rw [CLKPR_search_unfold, specStop_unfold]

theorem CLKPR_search_fuel (F fuel : Nat) (hfuel : 9 ≤ fuel) :
    CLKPR_search F fuel = some (specStop F) := by
  obtain ⟨k, rfl⟩ := Nat.exists_eq_add_of_le hfuel
  exact whileLoop_fuel_add _ _ k 9 0 _ (CLKPR_search_nine F)

theorem CLKPR_adjust_specStop (F : Nat) : CLKPR_adjust F (specStop F) = specExponent F := by
  simp only [CLKPR_adjust, specExponent, B1000, B0000, Nat.shiftLeft_eq, one_mul]
  by_cases h1 : specStop F < 8 ∧ specStop F > 0
  · rw [if_pos h1]
    by_cases h2 : (F : Int) - ((8000000 / 2 ^ specStop F : Nat) : Int)
        > ((8000000 / 2 ^ (specStop F - 1) : Nat) : Int) - (F : Int)
    · rw [if_pos h2, if_pos ⟨h1.2, h1.1, h2⟩]
    · rw [if_neg h2, if_neg (fun h => h2 h.2.2)]
  · rw [if_neg h1, if_neg (fun h => h1 ⟨h.2.1, h.1⟩)]

theorem CLKPR_exponent_eq_spec (F fuel : Nat) (hfuel : 9 ≤ fuel) :
    CLKPR_exponent F fuel = some (specExponent F) := by
  simp only [CLKPR_exponent, CLKPR_search_fuel F fuel hfuel, Option.map_some',
    CLKPR_adjust_specStop]

theorem specStop_le (F : Nat) : specStop F ≤ 8 := by
  rw [specStop_unfold]
  repeat' split
  all_goals omega

theorem specExponent_le (F : Nat) : specExponent F ≤ 8 := by
  have := specStop_le F
  simp only [specExponent]
  split <;> omega

theorem CLKPR_Calibrate_eq_spec (F fuel : Nat) (hfuel : 9 ≤ fuel) :
    CLKPR_Calibrate F fuel =
      some [Effect.write Reg.CLKPR 128, Effect.write Reg.CLKPR (specExponent F)] := by
  have h8 := specExponent_le F
  have hmod : specExponent F % 256 = specExponent F := Nat.mod_eq_of_lt (by omega)
  simp only [CLKPR_Calibrate, CLKPR_exponent_eq_spec F fuel hfuel, Option.map_some', hmod]
  rfl

/-- C8: with a budget of at least nine loop tests, `CLKPR_Calibrate` stores
the change-enable value and then the exponent the claim defines
(`specExponent`: the least `c` in `0..8` with `8000000 / 2^c ≤ F_CPU`, or
`8`; one less when `0 < c < 8` and
`F_CPU - 8000000/2^c > 8000000/2^(c-1) - F_CPU`); at `c = 0` and `c = 8`
the result is `c` itself. Targets 4,000,000, 8,000,000 and 1,200,000 give
1, 0 and 3. -/
theorem CLKPR_Calibrate_writes_spec_exponent (F_CPU fuel : Nat) (hfuel : 9 ≤ fuel) :
    CLKPR_Calibrate F_CPU fuel =
      some [Effect.write Reg.CLKPR (1 <<< CLKPCE),
        Effect.write Reg.CLKPR (specExponent F_CPU)] ∧
    (specStop F_CPU = 0 ∨ specStop F_CPU = 8 → specExponent F_CPU = specStop F_CPU) ∧
    CLKPR_Calibrate 4000000 fuel =
      some [Effect.write Reg.CLKPR (1 <<< CLKPCE), Effect.write Reg.CLKPR 1] ∧
    CLKPR_Calibrate 8000000 fuel =
      some [Effect.write Reg.CLKPR (1 <<< CLKPCE), Effect.write Reg.CLKPR 0] ∧
    CLKPR_Calibrate 1200000 fuel =
      some [Effect.write Reg.CLKPR (1 <<< CLKPCE), Effect.write Reg.CLKPR 3] := by
  have e1 : specExponent 4000000 = 1 := by decide
  have e2 : specExponent 8000000 = 0 := by decide
  have e3 : specExponent 1200000 = 3 := by decide
  refine ⟨CLKPR_Calibrate_eq_spec F_CPU fuel hfuel, ?_, ?_, ?_, ?_⟩
  · intro h
    simp only [specExponent]
    split <;> omega
  · rw [CLKPR_Calibrate_eq_spec _ fuel hfuel, e1]; rfl
  · rw [CLKPR_Calibrate_eq_spec _ fuel hfuel, e2]; rfl
  · rw [CLKPR_Calibrate_eq_spec _ fuel hfuel, e3]; rfl

theorem CLKPR_Calibrate_writes_spec_exponent_witness :
    9 ≤ 9 ∧
    (CLKPR_Calibrate 2000000 9 =
      some [Effect.write Reg.CLKPR (1 <<< CLKPCE),
        Effect.write Reg.CLKPR (specExponent 2000000)] ∧
    (specStop 2000000 = 0 ∨ specStop 2000000 = 8 → specExponent 2000000 = specStop 2000000) ∧
    CLKPR_Calibrate 4000000 9 =
      some [Effect.write Reg.CLKPR (1 <<< CLKPCE), Effect.write Reg.CLKPR 1] ∧
    CLKPR_Calibrate 8000000 9 =
      some [Effect.write Reg.CLKPR (1 <<< CLKPCE), Effect.write Reg.CLKPR 0] ∧
    CLKPR_Calibrate 1200000 9 =
      some [Effect.write Reg.CLKPR (1 <<< CLKPCE), Effect.write Reg.CLKPR 3]) :=
  ⟨by decide, CLKPR_Calibrate_writes_spec_exponent 2000000 9 (by decide)⟩

/-- C9 fails as stated: for `F_CPU = 6,000,000` the search stops at
exponent 1, strictly between the bounds, the candidates 4 MHz and 8 MHz
are both 2 MHz away from the target, and `CLKPR_Calibrate` stores 1, not
the lower exponent 0. -/
theorem CLKPR_tie_at_6MHz_keeps_exponent :
    CLKPR_search 6000000 9 = some 1 ∧
    ((6000000 : Nat) : Int) - ((8000000 / 2 ^ 1 : Nat) : Int)
      = ((8000000 / 2 ^ (1 - 1) : Nat) : Int) - ((6000000 : Nat) : Int) ∧
    CLKPR_Calibrate 6000000 9 =
      some [Effect.write Reg.CLKPR 128, Effect.write Reg.CLKPR 1] ∧
    CLKPR_Calibrate 6000000 9 ≠
      some [Effect.write Reg.CLKPR 128, Effect.write Reg.CLKPR (1 - 1)] := by
  decide

/-- C9 as amended: whenever the search stops at an exponent `c` strictly
between the bounds and the two candidates are equally far from the
target, `CLKPR_Calibrate` keeps `c` (the higher exponent, the lower
frequency) and stores it. -/
theorem CLKPR_tie_keeps_search_exponent (F_CPU fuel c : Nat)
    (hc : CLKPR_search F_CPU fuel = some c) (h0 : 0 < c) (h8 : c < 8)
    (htie : (F_CPU : Int) - ((8000000 / 2 ^ c : Nat) : Int)
      = ((8000000 / 2 ^ (c - 1) : Nat) : Int) - (F_CPU : Int)) :
    CLKPR_exponent F_CPU fuel = some c ∧
    CLKPR_Calibrate F_CPU fuel =
      some [Effect.write Reg.CLKPR (1 <<< CLKPCE), Effect.write Reg.CLKPR c] := by
  have hadj : CLKPR_adjust F_CPU c = c := by
    simp only [CLKPR_adjust, B1000, B0000, Nat.shiftLeft_eq, one_mul]
    rw [if_pos ⟨h8, h0⟩, if_neg (by omega)]
  have hmod : c % 256 = c := Nat.mod_eq_of_lt (by omega)
  have hexp : CLKPR_exponent F_CPU fuel = some c := by
    simp only [CLKPR_exponent, hc, Option.map_some', hadj]
  refine ⟨hexp, ?_⟩
  simp only [CLKPR_Calibrate, hexp, Option.map_some', hmod]
  rfl

theorem CLKPR_tie_keeps_search_exponent_witness :
    (CLKPR_search 3000000 9 = some 2 ∧ 0 < 2 ∧ 2 < 8 ∧
      ((3000000 : Nat) : Int) - ((8000000 / 2 ^ 2 : Nat) : Int)
        = ((8000000 / 2 ^ (2 - 1) : Nat) : Int) - ((3000000 : Nat) : Int)) ∧
    (CLKPR_exponent 3000000 9 = some 2 ∧
      CLKPR_Calibrate 3000000 9 =
        some [Effect.write Reg.CLKPR (1 <<< CLKPCE), Effect.write Reg.CLKPR 2]) :=
  ⟨⟨by decide, by decide, by decide, by decide⟩,
    CLKPR_tie_keeps_search_exponent 3000000 9 2 (by decide) (by decide) (by decide)
      (by decide)⟩

/-- C10 fails as stated: for the target `F_CPU = 32768` no divider of
8 MHz up to 128 is at or below the target, the search runs to `B1000`,
and `CLKPR_Calibrate` stores 8, which is outside `0..7`. -/
theorem CLKPR_Calibrate_32768_writes_8 :
    0 < 32768 ∧
    CLKPR_Calibrate 32768 9 =
      some [Effect.write Reg.CLKPR 128, Effect.write Reg.CLKPR 8] ∧ ¬ (8 ≤ 7) := by
  decide

/-- C10 as amended: for every target frequency the exponent stored by
`CLKPR_Calibrate` lies in `0..8`; it is at most 7 when
`F_CPU ≥ 62500` and it is 8 when `F_CPU < 62500`. -/
theorem CLKPR_Calibrate_exponent_range (F_CPU fuel : Nat) (hfuel : 9 ≤ fuel) :
    ∃ e, CLKPR_Calibrate F_CPU fuel =
        some [Effect.write Reg.CLKPR (1 <<< CLKPCE), Effect.write Reg.CLKPR e] ∧
      0 ≤ e ∧ e ≤ 8 ∧ (62500 ≤ F_CPU → e ≤ 7) ∧ (F_CPU < 62500 → e = 8) := by
  refine ⟨specExponent F_CPU, CLKPR_Calibrate_eq_spec F_CPU fuel hfuel, Nat.zero_le _,
    specExponent_le F_CPU, ?_, ?_⟩
  · intro h
    have h1 : specStop F_CPU ≤ 7 := by
      rw [specStop_unfold]
      repeat' split
      all_goals omega
    have h2 : specExponent F_CPU ≤ specStop F_CPU := by
      simp only [specExponent]
      split <;> omega
    omega
  · intro h
    have h1 : specStop F_CPU = 8 := by
      rw [specStop_unfold]
      repeat' split
      all_goals omega
    simp only [specExponent, h1]
    split <;> omega

theorem CLKPR_Calibrate_exponent_range_witness :
    9 ≤ 9 ∧
    ∃ e, CLKPR_Calibrate 1000000 9 =
        some [Effect.write Reg.CLKPR (1 <<< CLKPCE), Effect.write Reg.CLKPR e] ∧
      0 ≤ e ∧ e ≤ 8 ∧ (62500 ≤ 1000000 → e ≤ 7) ∧ (1000000 < 62500 → e = 8) :=
  ⟨by decide, CLKPR_Calibrate_exponent_range 1000000 9 (by decide)⟩

/-! ## Clock accumulator: conservation -/

/-- The normalisation loop entered with `k * cpm + r` cycles, `1 ≤ r ≤ cpm`,
subtracts `cpm` exactly `k` times. -/
theorem overflowLoop_run (cpm r : Nat) (hr1 : 1 ≤ r) (hr2 : r ≤ cpm) :
    ∀ (k m fuel : Nat), k * cpm + r < U32 → m < U32 → k + 1 ≤ fuel →
      whileLoop (fun t => decide (t.timer0_clock_cycles > cpm)) (overflowBody cpm) fuel
        ⟨k * cpm + r, m⟩ = some ⟨r, (m + k) % U32⟩ := by
  intro k
  induction k with
  | zero =>
    intro m fuel _ hm hf
    obtain ⟨f, rfl⟩ : ∃ f, fuel = f + 1 := ⟨fuel - 1, by omega⟩
    have hc : ¬ (r > cpm) := by omega
    simp only [whileLoop, Nat.zero_mul, Nat.zero_add, hc, decide_False, Bool.false_eq_true,
      if_false, Nat.add_zero, Nat.mod_eq_of_lt hm]
  | succ k ih =>
    intro m fuel hlt hm hf
    obtain ⟨f, rfl⟩ : ∃ f, fuel = f + 1 := ⟨fuel - 1, by omega⟩
    have hmul : (k + 1) * cpm = k * cpm + cpm := Nat.succ_mul k cpm
    have hc : (k + 1) * cpm + r > cpm := by omega
    have hsub : subU32 ((k + 1) * cpm + r) cpm = k * cpm + r := by
      simp only [subU32, U32] at *
      omega
    have hm1 : (m + 1) % U32 < U32 := Nat.mod_lt _ (by decide)
    have hstep := ih ((m + 1) % U32) f (by omega) hm1 (by omega)
    have hmm : ((m + 1) % U32 + k) % U32 = (m + (k + 1)) % U32 := by
      simp only [U32]
      omega
    simp only [whileLoop, hc, decide_True, if_true, overflowBody, hsub]
    rw [hstep, hmm]

/-- C16: for `cpm ≥ 1` and a state `(c, m)` with `c + 16384 < 2^32`, one
invocation of the overflow handler returns (any budget of `k + 1` loop
tests or more) the state `(r, (m + k) mod 2^32)` with
`k * cpm + r = c + 16384` and `1 ≤ r ≤ cpm`, where
`k = ceil((c + 16384) / cpm) - 1`: no cycle is lost or counted twice and
the remainder is never zero. The remainder can equal `cpm`: it does at
`cpm = 8000` from the state `(7616, 253)`. -/
theorem SIG_OVERFLOW0_conserves_cycles (cpm c m : Nat) (hcpm : 1 ≤ cpm)
    (hc : c + 16384 < U32) (hm : m < U32) :
    (∃ k r, (∀ fuel, k + 1 ≤ fuel →
        SIG_OVERFLOW0 cpm fuel ⟨c, m⟩ = some ⟨r, (m + k) % U32⟩) ∧
      k * cpm + r = c + 16384 ∧ 1 ≤ r ∧ r ≤ cpm ∧
      k = (c + 16384 + cpm - 1) / cpm - 1) ∧
    SIG_OVERFLOW0 8000 4 ⟨7616, 253⟩ = some ⟨8000, 255⟩ := by
  refine ⟨⟨(c + 16384 - 1) / cpm, (c + 16384 - 1) % cpm + 1, ?_, ?_, by omega, ?_, ?_⟩,
    SIG_OVERFLOW0_8MHz_full⟩
  · intro fuel hf
    have hdm := Nat.div_add_mod (c + 16384 - 1) cpm
    have hcomm : cpm * ((c + 16384 - 1) / cpm) = (c + 16384 - 1) / cpm * cpm :=
      Nat.mul_comm _ _
    have hT : (c + 16384 - 1) / cpm * cpm + ((c + 16384 - 1) % cpm + 1) = c + 16384 := by
      omega
    have hlt := Nat.mod_lt (c + 16384 - 1) (show cpm > 0 by omega)
    have hrun := overflowLoop_run cpm ((c + 16384 - 1) % cpm + 1) (by omega) (by omega)
      ((c + 16384 - 1) / cpm) m fuel (by rw [hT]; exact hc) hm hf
    rw [hT] at hrun
    have hmod : (c + 64 * 256) % U32 = c + 16384 := Nat.mod_eq_of_lt (by omega)
    simp only [SIG_OVERFLOW0, hmod]
    exact hrun
  · have hdm := Nat.div_add_mod (c + 16384 - 1) cpm
    have hcomm : cpm * ((c + 16384 - 1) / cpm) = (c + 16384 - 1) / cpm * cpm :=
      Nat.mul_comm _ _
    omega
  · have hlt := Nat.mod_lt (c + 16384 - 1) (show cpm > 0 by omega)
    omega
  · have h1 : c + 16384 + cpm - 1 = (c + 16384 - 1) + cpm := by omega
    rw [h1, Nat.add_div_right _ (show 0 < cpm by omega), Nat.add_sub_cancel]

theorem SIG_OVERFLOW0_conserves_cycles_witness :
    (1 ≤ 16000 ∧ 384 + 16384 < U32 ∧ 1 < U32) ∧
    ((∃ k r, (∀ fuel, k + 1 ≤ fuel →
        SIG_OVERFLOW0 16000 fuel ⟨384, 1⟩ = some ⟨r, (1 + k) % U32⟩) ∧
      k * 16000 + r = 384 + 16384 ∧ 1 ≤ r ∧ r ≤ 16000 ∧
      k = (384 + 16384 + 16000 - 1) / 16000 - 1) ∧
    SIG_OVERFLOW0 8000 4 ⟨7616, 253⟩ = some ⟨8000, 255⟩) :=
  ⟨⟨by decide, by decide, by decide⟩,
    SIG_OVERFLOW0_conserves_cycles 16000 384 1 (by decide) (by decide) (by decide)⟩

/-! ## `delay`: the largest argument, and a clock read once per tick -/

theorem tickClock_getElem? (start n j : Nat) :
    (tickClock start n)[j]? = if j < n then some ((start + (j + 1)) % U32) else none := by
  simp only [tickClock, List.getElem?_map]
  by_cases h : j < n
  · rw [List.getElem?_range h, if_pos h]
    rfl
  · rw [if_neg h, List.getElem?_eq_none (by simpa using h)]
    rfl

theorem subU32_tick (start j : Nat) (hstart : start < U32) (hj : j + 1 < U32) :
    subU32 ((start + (j + 1)) % U32) start = j + 1 := by
  simp only [subU32, U32] at *
  omega

theorem subU32_le_max (a b : Nat) : subU32 a b ≤ U32 - 1 := by
  have h : subU32 a b < U32 := Nat.mod_lt _ (by decide)
  omega

/-- C17: with `ms = 2^32 - 1` the loop condition `millis() - start ≤ ms`
holds for every reading, and `delay` does not return, whatever `millis()`
returns and however long the sequence of readings. For every smaller `ms`
and a clock that has advanced by one at each reading, `delay(ms)` exits at
the reading number `ms` (counted from 0), the one taken after exactly
`ms + 1` ticks, and is still spinning when fewer readings are available. -/
theorem delay_max_never_returns (start : Nat) (hstart : start < U32) :
    (∀ r, subU32 r start ≤ U32 - 1) ∧
    (∀ rs : List Nat, delay (U32 - 1) (start :: rs) = none) ∧
    (∀ ms n, ms < U32 - 1 →
      (ms < n → delay ms (start :: tickClock start n) = some ms ∧
        (tickClock start n)[ms]? = some ((start + (ms + 1)) % U32)) ∧
      (n ≤ ms → delay ms (start :: tickClock start n) = none)) := by
  refine ⟨fun r => subU32_le_max r start, ?_, ?_⟩
  · intro rs
    cases h : delay (U32 - 1) (start :: rs) with
    | none => rfl
    | some k =>
      simp only [delay] at h
      obtain ⟨⟨r, -, hlt⟩, -⟩ := (delayLoop_eq_some_iff start (U32 - 1) rs k).1 h
      have := subU32_le_max r start
      omega
  · intro ms n hms
    have hU : U32 = 4294967296 := rfl
    constructor
    · intro hn
      have hget : (tickClock start n)[ms]? = some ((start + (ms + 1)) % U32) := by
        rw [tickClock_getElem?, if_pos hn]
      refine ⟨?_, hget⟩
      simp only [delay]
      rw [delayLoop_eq_some_iff]
      refine ⟨⟨_, hget, ?_⟩, ?_⟩
      · rw [subU32_tick start ms hstart (by omega)]
        omega
      · intro j hj q hq
        rw [tickClock_getElem?, if_pos (by omega)] at hq
        simp only [Option.some.injEq] at hq
        rw [← hq, subU32_tick start j hstart (by omega)]
        omega
    · intro hn
      cases h : delay ms (start :: tickClock start n) with
      | none => rfl
      | some k =>
        simp only [delay] at h
        obtain ⟨⟨r, hr, hlt⟩, -⟩ := (delayLoop_eq_some_iff start ms _ k).1 h
        rw [tickClock_getElem?] at hr
        by_cases hk : k < n
        · rw [if_pos hk] at hr
          simp only [Option.some.injEq] at hr
          rw [← hr, subU32_tick start k hstart (by omega)] at hlt
          omega
        · rw [if_neg hk] at hr
          simp at hr

theorem delay_max_never_returns_witness :
    4294967294 < U32 ∧
    ((∀ r, subU32 r 4294967294 ≤ U32 - 1) ∧
    (∀ rs : List Nat, delay (U32 - 1) (4294967294 :: rs) = none) ∧
    (∀ ms n, ms < U32 - 1 →
      (ms < n → delay ms (4294967294 :: tickClock 4294967294 n) = some ms ∧
        (tickClock 4294967294 n)[ms]? = some ((4294967294 + (ms + 1)) % U32)) ∧
      (n ≤ ms → delay ms (4294967294 :: tickClock 4294967294 n) = none))) :=
  ⟨by decide, delay_max_never_returns 4294967294 (by decide)⟩

/-! ## `delayMicroseconds`: iteration counts -/

theorem delayMicroseconds_eq_loopCounter (F_CPU fuel us : Nat) (s : Avr) :
    delayMicroseconds F_CPU fuel us s =
      match loopCounter F_CPU us with
      | none => some (s, [])
      | some c => delayBusy fuel c s := by
  simp only [delayMicroseconds, loopCounter]
  by_cases hF : F_CPU ≥ 16000000
  · rw [if_pos hF, if_pos hF]
    by_cases h1 : subU16 us 1 = 0
    · rw [if_pos h1, if_pos h1]
    · rw [if_neg h1, if_neg h1]
  · rw [if_neg hF, if_neg hF]
    by_cases h1 : subU16 us 1 = 0
    · rw [if_pos h1, if_pos h1]
    · rw [if_neg h1, if_neg h1]
      by_cases h2 : subU16 (subU16 us 1) 1 = 0
      · rw [if_pos h2, if_pos h2]
      · rw [if_neg h2, if_neg h2]

theorem delayBusy_eq (fuel c : Nat) (s : Avr) (hc0 : c ≠ 0) (hc : c < U16) (hf : c ≤ fuel) :
    delayBusy fuel c s =
      some (s, [Effect.cli, Effect.busy c (cli s).SREG, Effect.write Reg.SREG s.SREG]) := by
  have hb := busyLoop_eq fuel c 0 hc (by rw [if_neg hc0]; exact hf)
  rw [if_neg hc0, Nat.zero_add] at hb
  simp only [delayBusy, hb, Option.map_some']
  cases s
  rfl

theorem delayMicroseconds_of_loopCounter (F_CPU fuel us c : Nat) (s : Avr)
    (h : loopCounter F_CPU us = some c) (hc0 : c ≠ 0) (hc : c < U16) (hf : c ≤ fuel) :
    delayMicroseconds F_CPU fuel us s =
      some (s, [Effect.cli, Effect.busy c (cli s).SREG, Effect.write Reg.SREG s.SREG]) := by
  rw [delayMicroseconds_eq_loopCounter, h]
  exact delayBusy_eq fuel c s hc0 hc hf

theorem delayIterations_of_loopCounter (F_CPU fuel us c : Nat) (s : Avr)
    (h : loopCounter F_CPU us = some c) (hc0 : c ≠ 0) (hc : c < U16) (hf : c ≤ fuel) :
    delayIterations F_CPU fuel us s = some c := by
  simp only [delayIterations, delayMicroseconds_of_loopCounter F_CPU fuel us c s h hc0 hc hf,
    Option.map_some', busyIterations, Nat.add_zero]

theorem loopCounter_high (F_CPU us : Nat) (hF : 16000000 ≤ F_CPU) (h2 : 2 ≤ us)
    (h3 : us ≤ 16384) : loopCounter F_CPU us = some (4 * (us - 1) - 2) := by
  have h1 : subU16 us 1 = us - 1 := by
    simp only [subU16, U16]
    omega
  have hne : us - 1 ≠ 0 := by omega
  have hsh : ((us - 1) <<< 2) % U16 = 4 * (us - 1) := by
    simp only [Nat.shiftLeft_eq, U16]
    omega
  have hsub : subU16 (4 * (us - 1)) 2 = 4 * (us - 1) - 2 := by
    simp only [subU16, U16]
    omega
  simp only [loopCounter, ge_iff_le, hF, if_true, h1, hne, if_false, hsh, hsub]

theorem loopCounter_low (F_CPU us : Nat) (hF : F_CPU < 16000000) (h2 : 3 ≤ us)
    (h3 : us ≤ 32769) : loopCounter F_CPU us = some (2 * (us - 2) - 1) := by
  have hF2 : ¬ (16000000 ≤ F_CPU) := by omega
  have h1 : subU16 us 1 = us - 1 := by
    simp only [subU16, U16]
    omega
  have hne : us - 1 ≠ 0 := by omega
  have h1b : subU16 (us - 1) 1 = us - 2 := by
    simp only [subU16, U16]
    omega
  have hne2 : us - 2 ≠ 0 := by omega
  have hsh : ((us - 2) <<< 1) % U16 = 2 * (us - 2) := by
    simp only [Nat.shiftLeft_eq, U16]
    omega
  have hsub : subU16 (2 * (us - 2)) 1 = 2 * (us - 2) - 1 := by
    simp only [subU16, U16]
    omega
  simp only [loopCounter, ge_iff_le, hF2, if_false, h1, hne, h1b, hne2, hsh, hsub]

/-- C14: with a budget that covers the 16-bit counter, on the
high-frequency path `delayMicroseconds(us)` runs exactly `4*(us-1) - 2`
busy-loop iterations for `2 ≤ us ≤ 16384`, on the low-frequency path
exactly `2*(us-2) - 1` for `3 ≤ us ≤ 32769`, and within each range a
larger argument runs strictly more iterations. -/
theorem delayMicroseconds_iteration_count (F_CPU fuel us : Nat) (s : Avr)
    (hfuel : U16 ≤ fuel) :
    (16000000 ≤ F_CPU → 2 ≤ us → us ≤ 16384 →
      delayIterations F_CPU fuel us s = some (4 * (us - 1) - 2) ∧
      ∀ us1, us < us1 → us1 ≤ 16384 →
        ∃ n n1, delayIterations F_CPU fuel us s = some n ∧
          delayIterations F_CPU fuel us1 s = some n1 ∧ n < n1) ∧
    (F_CPU < 16000000 → 3 ≤ us → us ≤ 32769 →
      delayIterations F_CPU fuel us s = some (2 * (us - 2) - 1) ∧
      ∀ us1, us < us1 → us1 ≤ 32769 →
        ∃ n n1, delayIterations F_CPU fuel us s = some n ∧
          delayIterations F_CPU fuel us1 s = some n1 ∧ n < n1) := by
  have hU : U16 = 65536 := rfl
  have high : ∀ u, 16000000 ≤ F_CPU → 2 ≤ u → u ≤ 16384 →
      delayIterations F_CPU fuel u s = some (4 * (u - 1) - 2) := by
    intro u hF h2 h3
    exact delayIterations_of_loopCounter F_CPU fuel u _ s (loopCounter_high F_CPU u hF h2 h3)
      (by omega) (by omega) (by omega)
  have low : ∀ u, F_CPU < 16000000 → 3 ≤ u → u ≤ 32769 →
      delayIterations F_CPU fuel u s = some (2 * (u - 2) - 1) := by
    intro u hF h2 h3
    exact delayIterations_of_loopCounter F_CPU fuel u _ s (loopCounter_low F_CPU u hF h2 h3)
      (by omega) (by omega) (by omega)
  constructor
  · intro hF h2 h3
    refine ⟨high us hF h2 h3, ?_⟩
    intro us1 hlt hle
    exact ⟨_, _, high us hF h2 h3, high us1 hF (by omega) hle, by omega⟩
  · intro hF h2 h3
    refine ⟨low us hF h2 h3, ?_⟩
    intro us1 hlt hle
    exact ⟨_, _, low us hF h2 h3, low us1 hF (by omega) hle, by omega⟩

theorem delayMicroseconds_iteration_count_witness :
    U16 ≤ 65536 ∧
    ((16000000 ≤ 8000000 → 2 ≤ 10 → 10 ≤ 16384 →
      delayIterations 8000000 65536 10 ⟨0x80, ⟨0, 0⟩⟩ = some (4 * (10 - 1) - 2) ∧
      ∀ us1, 10 < us1 → us1 ≤ 16384 →
        ∃ n n1, delayIterations 8000000 65536 10 ⟨0x80, ⟨0, 0⟩⟩ = some n ∧
          delayIterations 8000000 65536 us1 ⟨0x80, ⟨0, 0⟩⟩ = some n1 ∧ n < n1) ∧
    (8000000 < 16000000 → 3 ≤ 10 → 10 ≤ 32769 →
      delayIterations 8000000 65536 10 ⟨0x80, ⟨0, 0⟩⟩ = some (2 * (10 - 2) - 1) ∧
      ∀ us1, 10 < us1 → us1 ≤ 32769 →
        ∃ n n1, delayIterations 8000000 65536 10 ⟨0x80, ⟨0, 0⟩⟩ = some n ∧
          delayIterations 8000000 65536 us1 ⟨0x80, ⟨0, 0⟩⟩ = some n1 ∧ n < n1)) :=
  ⟨by decide, delayMicroseconds_iteration_count 8000000 65536 10 ⟨0x80, ⟨0, 0⟩⟩ (by decide)⟩

theorem delayIterations_of_short_circuit (F_CPU fuel us : Nat) (s : Avr)
    (h : loopCounter F_CPU us = none) : delayIterations F_CPU fuel us s = some 0 := by
  simp only [delayIterations, delayMicroseconds_eq_loopCounter, h, Option.map_some',
    busyIterations]

theorem loopCounter_facts (F_CPU us c : Nat) (h : loopCounter F_CPU us = some c) :
    c ≠ 0 ∧ c < U16 ∧ (16000000 ≤ F_CPU → c % 4 = 2) ∧ (F_CPU < 16000000 → c % 2 = 1) := by
  simp only [loopCounter] at h
  by_cases hF : F_CPU ≥ 16000000
  · rw [if_pos hF] at h
    by_cases h1 : subU16 us 1 = 0
    · rw [if_pos h1] at h
      simp at h
    · rw [if_neg h1] at h
      simp only [Option.some.injEq] at h
      subst h
      simp only [subU16, U16, Nat.shiftLeft_eq] at *
      refine ⟨by omega, by omega, fun _ => by omega, fun _ => by omega⟩
  · rw [if_neg hF] at h
    by_cases h1 : subU16 us 1 = 0
    · rw [if_pos h1] at h
      simp at h
    · rw [if_neg h1] at h
      by_cases h2 : subU16 (subU16 us 1) 1 = 0
      · rw [if_pos h2] at h
        simp at h
      · rw [if_neg h2] at h
        simp only [Option.some.injEq] at h
        subst h
        simp only [subU16, U16, Nat.shiftLeft_eq] at *
        refine ⟨by omega, by omega, fun _ => by omega, fun _ => by omega⟩

/-- C18: whenever `delayMicroseconds(us)` reaches the busy loop, the counter
`c` it hands to the loop is a non-zero 16-bit value (`c mod 4 = 2` on the
high-frequency path, `c` odd on the low-frequency path), so the loop runs
exactly `c` iterations; a counter of zero would make the same loop run
`65536` times. -/
theorem loopCounter_never_zero (F_CPU us c : Nat) (h : loopCounter F_CPU us = some c) :
    c ≠ 0 ∧ c < U16 ∧ (16000000 ≤ F_CPU → c % 4 = 2) ∧ (F_CPU < 16000000 → c % 2 = 1) ∧
    (∀ fuel s, U16 ≤ fuel →
      delayMicroseconds F_CPU fuel us s =
        some (s, [Effect.cli, Effect.busy c (cli s).SREG, Effect.write Reg.SREG s.SREG]) ∧
      delayIterations F_CPU fuel us s = some c) ∧
    (∀ fuel, U16 ≤ fuel → busyLoop fuel 0 0 = some 65536) := by
  obtain ⟨h0, hU, h4, h2⟩ := loopCounter_facts F_CPU us c h
  refine ⟨h0, hU, h4, h2, ?_, ?_⟩
  · intro fuel s hf
    exact ⟨delayMicroseconds_of_loopCounter F_CPU fuel us c s h h0 hU (by omega),
      delayIterations_of_loopCounter F_CPU fuel us c s h h0 hU (by omega)⟩
  · intro fuel hf
    have hb := busyLoop_eq fuel 0 0 (by decide) (by rw [if_pos rfl]; exact hf)
    rw [if_pos rfl, Nat.zero_add] at hb
    exact hb

theorem loopCounter_never_zero_witness :
    loopCounter 16000000 100 = some 394 ∧
    ((394 : Nat) ≠ 0 ∧ 394 < U16 ∧ (16000000 ≤ 16000000 → 394 % 4 = 2) ∧
    (16000000 < 16000000 → 394 % 2 = 1) ∧
    (∀ fuel s, U16 ≤ fuel →
      delayMicroseconds 16000000 fuel 100 s =
        some (s, [Effect.cli, Effect.busy 394 (cli s).SREG, Effect.write Reg.SREG s.SREG]) ∧
      delayIterations 16000000 fuel 100 s = some 394) ∧
    (∀ fuel, U16 ≤ fuel → busyLoop fuel 0 0 = some 65536)) :=
  ⟨by decide, loopCounter_never_zero 16000000 100 394 (by decide)⟩

/-- C19 fails as stated: on the low-frequency path `delayMicroseconds(0)`
runs 65531 iterations, but the argument 32769, whose scaled count still
fits the 16-bit counter, runs 65533; on the high-frequency path the
argument 16384 runs the same 65530 iterations as the argument 0. -/
theorem delayMicroseconds_zero_not_the_longest :
    delayIterations 8000000 65536 0 ⟨0x80, ⟨0, 0⟩⟩ = some 65531 ∧
    delayIterations 8000000 65536 32769 ⟨0x80, ⟨0, 0⟩⟩ = some 65533 ∧
    ¬ (65533 < 65531) ∧
    delayIterations 16000000 65536 0 ⟨0x80, ⟨0, 0⟩⟩ = some 65530 ∧
    delayIterations 16000000 65536 16384 ⟨0x80, ⟨0, 0⟩⟩ = some 65530 ∧
    ¬ (65530 < 65530) :=
  ⟨delayIterations_of_loopCounter 8000000 65536 0 65531 _ (by decide) (by decide) (by decide)
      (by decide),
    delayIterations_of_loopCounter 8000000 65536 32769 65533 _ (by decide) (by decide)
      (by decide) (by decide),
    by decide,
    delayIterations_of_loopCounter 16000000 65536 0 65530 _ (by decide) (by decide)
      (by decide) (by decide),
    delayIterations_of_loopCounter 16000000 65536 16384 65530 _ (by decide) (by decide)
      (by decide) (by decide),
    by decide⟩

theorem loopCounter_zero_high (F_CPU : Nat) (hF : 16000000 ≤ F_CPU) :
    loopCounter F_CPU 0 = some 65530 := by
  simp only [loopCounter, ge_iff_le, hF, if_true]
  decide

theorem loopCounter_zero_low (F_CPU : Nat) (hF : F_CPU < 16000000) :
    loopCounter F_CPU 0 = some 65531 := by
  have hF2 : ¬ (16000000 ≤ F_CPU) := by omega
  simp only [loopCounter, ge_iff_le, hF2, if_false]
  decide

theorem loopCounter_one (F_CPU : Nat) : loopCounter F_CPU 1 = none := by
  simp only [loopCounter]
  split <;> decide

theorem loopCounter_two_low (F_CPU : Nat) (hF : F_CPU < 16000000) :
    loopCounter F_CPU 2 = none := by
  have hF2 : ¬ (16000000 ≤ F_CPU) := by omega
  simp only [loopCounter, ge_iff_le, hF2, if_false]
  decide

/-- C19 as amended: `delayMicroseconds(0)` does not short-circuit; the
pre-decrement wraps and the busy loop runs 65530 iterations on the
high-frequency path and 65531 on the low-frequency path. No argument in
`1..16384` (high) resp. `1..32768` (low) runs more, the largest of them
running exactly as many; the argument 32769 on the low-frequency path runs
65533. -/
theorem delayMicroseconds_zero_wraps (F_CPU fuel : Nat) (s : Avr) (hfuel : U16 ≤ fuel) :
    (16000000 ≤ F_CPU →
      delayIterations F_CPU fuel 0 s = some 65530 ∧
      ∀ us, 1 ≤ us → us ≤ 16384 →
        ∃ n, delayIterations F_CPU fuel us s = some n ∧ n ≤ 65530 ∧
          (n = 65530 ↔ us = 16384)) ∧
    (F_CPU < 16000000 →
      delayIterations F_CPU fuel 0 s = some 65531 ∧
      (∀ us, 1 ≤ us → us ≤ 32768 →
        ∃ n, delayIterations F_CPU fuel us s = some n ∧ n ≤ 65531 ∧
          (n = 65531 ↔ us = 32768)) ∧
      delayIterations F_CPU fuel 32769 s = some 65533) := by
  have hU : U16 = 65536 := rfl
  constructor
  · intro hF
    refine ⟨delayIterations_of_loopCounter F_CPU fuel 0 65530 s (loopCounter_zero_high F_CPU hF)
      (by decide) (by decide) (by omega), ?_⟩
    intro us h1 h2
    by_cases hone : us = 1
    · subst hone
      exact ⟨0, delayIterations_of_short_circuit F_CPU fuel 1 s (loopCounter_one F_CPU),
        by omega, by omega⟩
    · exact ⟨4 * (us - 1) - 2,
        delayIterations_of_loopCounter F_CPU fuel us _ s
          (loopCounter_high F_CPU us hF (by omega) h2) (by omega) (by omega) (by omega),
        by omega, by omega⟩
  · intro hF
    refine ⟨delayIterations_of_loopCounter F_CPU fuel 0 65531 s (loopCounter_zero_low F_CPU hF)
      (by decide) (by decide) (by omega), ?_, ?_⟩
    · intro us h1 h2
      by_cases hone : us = 1
      · subst hone
        exact ⟨0, delayIterations_of_short_circuit F_CPU fuel 1 s (loopCounter_one F_CPU),
          by omega, by omega⟩
      · by_cases htwo : us = 2
        · subst htwo
          exact ⟨0, delayIterations_of_short_circuit F_CPU fuel 2 s
            (loopCounter_two_low F_CPU hF), by omega, by omega⟩
        · exact ⟨2 * (us - 2) - 1,
            delayIterations_of_loopCounter F_CPU fuel us _ s
              (loopCounter_low F_CPU us hF (by omega) (by omega)) (by omega) (by omega)
              (by omega),
            by omega, by omega⟩
    · exact delayIterations_of_loopCounter F_CPU fuel 32769 65533 s
        (loopCounter_low F_CPU 32769 hF (by omega) (by omega)) (by decide) (by decide)
        (by omega)

theorem delayMicroseconds_zero_wraps_witness :
    U16 ≤ 65536 ∧
    ((16000000 ≤ 16000000 →
      delayIterations 16000000 65536 0 ⟨0x80, ⟨0, 0⟩⟩ = some 65530 ∧
      ∀ us, 1 ≤ us → us ≤ 16384 →
        ∃ n, delayIterations 16000000 65536 us ⟨0x80, ⟨0, 0⟩⟩ = some n ∧ n ≤ 65530 ∧
          (n = 65530 ↔ us = 16384)) ∧
    (16000000 < 16000000 →
      delayIterations 16000000 65536 0 ⟨0x80, ⟨0, 0⟩⟩ = some 65531 ∧
      (∀ us, 1 ≤ us → us ≤ 32768 →
        ∃ n, delayIterations 16000000 65536 us ⟨0x80, ⟨0, 0⟩⟩ = some n ∧ n ≤ 65531 ∧
          (n = 65531 ↔ us = 32768)) ∧
      delayIterations 16000000 65536 32769 ⟨0x80, ⟨0, 0⟩⟩ = some 65533)) :=
  ⟨by decide, delayMicroseconds_zero_wraps 16000000 65536 ⟨0x80, ⟨0, 0⟩⟩ (by decide)⟩

/-! ## `init`: the ADC prescale search -/

theorem ADC_search_fuel_add (F k : Nat) :
    ∀ (fuel a r : Nat), ADC_search F fuel a = some r → ADC_search F (fuel + k) a = some r := by
  intro fuel
  induction fuel with
  | zero => intro a r h; simp [ADC_search] at h
  | succ f ih =>
    intro a r h
    rw [Nat.add_right_comm]
    simp only [ADC_search] at h ⊢
    by_cases h1 : a + 1 > 14
    · rw [if_pos h1] at h
      simp at h
    · rw [if_neg h1] at h ⊢
      by_cases h2 : F / (1 <<< (a + 1)) > 200000
      · rw [if_pos h2] at h ⊢
        exact ih _ _ h
      · rw [if_neg h2] at h ⊢
        exact h

/-- A result `k` of the search entered at `a` is the first exponent above
`a` whose divided clock is at or below 200 kHz. -/
theorem ADC_search_sound (F : Nat) :
    ∀ (fuel a k : Nat), ADC_search F fuel a = some k →
      a < k ∧ k ≤ 14 ∧ F / 2 ^ k ≤ 200000 ∧ ∀ j, a < j → j < k → F / 2 ^ j > 200000 := by
  intro fuel
  induction fuel with
  | zero => intro a k h; simp [ADC_search] at h
  | succ f ih =>
    intro a k h
    simp only [ADC_search, Nat.shiftLeft_eq, Nat.one_mul] at h
    by_cases h1 : a + 1 > 14
    · rw [if_pos h1] at h
      simp at h
    · rw [if_neg h1] at h
      by_cases h2 : F / 2 ^ (a + 1) > 200000
      · rw [if_pos h2] at h
        have h3 : ADC_search F f (a + 1) = some k := by
          simpa only [Nat.shiftLeft_eq, Nat.one_mul] using h
        obtain ⟨g1, g2, g3, g4⟩ := ih (a + 1) k h3
        refine ⟨by omega, g2, g3, ?_⟩
        intro j hj1 hj2
        by_cases hj : j = a + 1
        · rw [hj]; exact h2
        · exact g4 j (by omega) hj2
      · rw [if_neg h2] at h
        simp only [Option.some.injEq] at h
        subst h
        refine ⟨by omega, by omega, by omega, ?_⟩
        intro j hj1 hj2
        omega

/-- The search returns when the clock divided by `2^14` is at or below
200 kHz and the budget covers the exponents still to try. -/
theorem ADC_search_returns (F : Nat) (hF : F / 2 ^ 14 ≤ 200000) :
    ∀ (fuel a : Nat), a < 14 → 14 - a ≤ fuel → ∃ k, ADC_search F fuel a = some k := by
  intro fuel
  induction fuel with
  | zero => intro a ha hf; omega
  | succ f ih =>
    intro a ha hf
    simp only [ADC_search, Nat.shiftLeft_eq, Nat.one_mul]
    rw [if_neg (by omega)]
    by_cases h2 : F / 2 ^ (a + 1) > 200000
    · rw [if_pos h2]
      have ha2 : a + 1 < 14 := by
        rcases Nat.lt_or_ge (a + 1) 14 with h | h
        · exact h
        · have : a + 1 = 14 := by omega
          rw [this] at h2
          omega
      obtain ⟨k, hk⟩ := ih (a + 1) ha2 (by omega)
      refine ⟨k, ?_⟩
      simpa only [Nat.shiftLeft_eq, Nat.one_mul] using hk
    · rw [if_neg h2]
      exact ⟨_, rfl⟩

/-- C13: whenever the search stays in range (`F_CPU / 2^14 ≤ 200000`) and
has a budget of 14 tests, it returns the least `k ≥ 1` with
`F_CPU / 2^k ≤ 200000`; it returns 6 for 8 MHz and 7 for 16 MHz. -/
theorem ADC_search_least_exponent (F_CPU fuel : Nat) (hrange : F_CPU / 2 ^ 14 ≤ 200000)
    (hfuel : 14 ≤ fuel) :
    (∃ k, ADC_search F_CPU fuel 0 = some k ∧ 1 ≤ k ∧ F_CPU / 2 ^ k ≤ 200000 ∧
      ∀ j, 1 ≤ j → j < k → F_CPU / 2 ^ j > 200000) ∧
    ADC_search 8000000 fuel 0 = some 6 ∧ ADC_search 16000000 fuel 0 = some 7 := by
  obtain ⟨n, rfl⟩ := Nat.exists_eq_add_of_le hfuel
  refine ⟨?_, ADC_search_fuel_add _ n 14 0 6 (by decide),
    ADC_search_fuel_add _ n 14 0 7 (by decide)⟩
  obtain ⟨k, hk⟩ := ADC_search_returns F_CPU hrange (14 + n) 0 (by omega) (by omega)
  obtain ⟨g1, -, g3, g4⟩ := ADC_search_sound F_CPU _ _ _ hk
  exact ⟨k, hk, by omega, g3, fun j hj1 hj2 => g4 j (by omega) hj2⟩

theorem ADC_search_least_exponent_witness :
    (1000000 / 2 ^ 14 ≤ 200000 ∧ 14 ≤ 14) ∧
    ((∃ k, ADC_search 1000000 14 0 = some k ∧ 1 ≤ k ∧ 1000000 / 2 ^ k ≤ 200000 ∧
      ∀ j, 1 ≤ j → j < k → 1000000 / 2 ^ j > 200000) ∧
    ADC_search 8000000 14 0 = some 6 ∧ ADC_search 16000000 14 0 = some 7) :=
  ⟨⟨by decide, by decide⟩, ADC_search_least_exponent 1000000 14 (by decide) (by decide)⟩

/-! ## `init`: the store to `ADCSRA` -/

set_option maxRecDepth 100000 in
/-- The store to `ADCSRA` on all 8-bit prior values and 3-bit exponents: only
bit `ADPS0` is cleared before the exponent is or-ed in. -/
theorem ADCSRA_prescale_bits : ∀ old, old < 256 → ∀ a, a < 8 →
    ADCSRA_prescale old a = (old &&& (255 - 1 <<< ADPS0)) ||| a ∧
    a ≤ ADCSRA_prescale old a % 8 ∧ ADCSRA_prescale old a / 8 = old / 8 := by
  decide

theorem ADC_search_le_seven (F fuel k : Nat) (hF : F ≤ 25600000)
    (h : ADC_search F fuel 0 = some k) : k ≤ 7 := by
  obtain ⟨-, -, -, g4⟩ := ADC_search_sound F fuel 0 k h
  rcases Nat.lt_or_ge k 8 with h8 | h8
  · omega
  · have h7 := g4 7 (by omega) (by omega)
    norm_num at h7
    omega

theorem initADC_eq (F fuel adpsx : Nat) (m : Mcu) (h : ADC_search F fuel 0 = some adpsx) :
    ∃ m1, initADC F fuel m = some m1 ∧
      m1.trace = m.trace ++
        [Effect.write Reg.ADCSRA (ADCSRA_prescale (m.regs Reg.ADCSRA) adpsx),
          Effect.write Reg.ADCSRA
            ((ADCSRA_prescale (m.regs Reg.ADCSRA) adpsx ||| (1 <<< ADEN)) % 256),
          Effect.write Reg.UCSRB 0] := by
  refine ⟨_, by rw [initADC, h, Option.map_some'], ?_⟩
  simp [store, sbi, setReg]

/-- C15: for `F_CPU ≤ 25,600,000`, a budget of 14 tests and any machine
state whose `ADCSRA` holds an 8-bit value `old`, the ADC part of `init`
computes an exponent `adpsx ≤ 7` and stores
`(old & ~(1<<ADPS0)) | adpsx` to `ADCSRA`; the 3-bit prescale field `p` of
the stored value satisfies `p ≥ adpsx`, hence `F_CPU / 2^p ≤ 200000`, and
the bits above the field are those of `old`. The field need not equal
`adpsx`: for 1 MHz and `old = 6` the exponent is 3 and the field is 7. -/
theorem ADCSRA_prescale_field (F_CPU fuel : Nat) (m : Mcu)
    (hF : F_CPU ≤ 25600000) (hold : m.regs Reg.ADCSRA < 256) (hfuel : 14 ≤ fuel) :
    (∃ adpsx v m1, ADC_search F_CPU fuel 0 = some adpsx ∧ adpsx ≤ 7 ∧
      initADC F_CPU fuel m = some m1 ∧
      m1.trace = m.trace ++ [Effect.write Reg.ADCSRA v,
        Effect.write Reg.ADCSRA ((v ||| (1 <<< ADEN)) % 256), Effect.write Reg.UCSRB 0] ∧
      v = (m.regs Reg.ADCSRA &&& (255 - 1 <<< ADPS0)) ||| adpsx ∧
      adpsx ≤ v % 8 ∧ F_CPU / 2 ^ (v % 8) ≤ 200000 ∧
      v / 8 = m.regs Reg.ADCSRA / 8) ∧
    (ADC_search 1000000 fuel 0 = some 3 ∧ ADCSRA_prescale 6 3 % 8 = 7) := by
  obtain ⟨n, rfl⟩ := Nat.exists_eq_add_of_le hfuel
  refine ⟨?_, ADC_search_fuel_add _ n 14 0 3 (by decide), by decide⟩
  obtain ⟨k, hk⟩ := ADC_search_returns F_CPU
    (by have : F_CPU / 2 ^ 14 ≤ 25600000 / 2 ^ 14 := Nat.div_le_div_right hF
        have h2 : 25600000 / 2 ^ 14 ≤ 200000 := by decide
        omega)
    (14 + n) 0 (by omega) (by omega)
  have h7 := ADC_search_le_seven F_CPU _ k hF hk
  obtain ⟨-, -, g3, -⟩ := ADC_search_sound F_CPU _ _ _ hk
  obtain ⟨b1, b2, b3⟩ := ADCSRA_prescale_bits _ hold k (by omega)
  obtain ⟨m1, hm1, htr⟩ := initADC_eq F_CPU (14 + n) k m hk
  refine ⟨k, ADCSRA_prescale (m.regs Reg.ADCSRA) k, m1, hk, h7, hm1, htr, b1, b2, ?_, b3⟩
  have hpow : 2 ^ k ≤ 2 ^ (ADCSRA_prescale (m.regs Reg.ADCSRA) k % 8) :=
    Nat.pow_le_pow_right (by decide) b2
  have := Nat.div_le_div_left (a := F_CPU) hpow (Nat.two_pow_pos k)
  omega

theorem ADCSRA_prescale_field_witness :
    (1000000 ≤ 25600000 ∧
      (⟨fun _ => 6, []⟩ : Mcu).regs Reg.ADCSRA < 256 ∧ 14 ≤ 14) ∧
    ((∃ adpsx v m1, ADC_search 1000000 14 0 = some adpsx ∧ adpsx ≤ 7 ∧
      initADC 1000000 14 ⟨fun _ => 6, []⟩ = some m1 ∧
      m1.trace = (⟨fun _ => 6, []⟩ : Mcu).trace ++ [Effect.write Reg.ADCSRA v,
        Effect.write Reg.ADCSRA ((v ||| (1 <<< ADEN)) % 256), Effect.write Reg.UCSRB 0] ∧
      v = ((⟨fun _ => 6, []⟩ : Mcu).regs Reg.ADCSRA &&& (255 - 1 <<< ADPS0)) ||| adpsx ∧
      adpsx ≤ v % 8 ∧ 1000000 / 2 ^ (v % 8) ≤ 200000 ∧
      v / 8 = (⟨fun _ => 6, []⟩ : Mcu).regs Reg.ADCSRA / 8) ∧
    (ADC_search 1000000 14 0 = some 3 ∧ ADCSRA_prescale 6 3 % 8 = 7)) :=
  ⟨⟨by decide, by decide, by decide⟩,
    ADCSRA_prescale_field 1000000 14 ⟨fun _ => 6, []⟩ (by decide) (by decide) (by decide)⟩

/-! ## `init`: the order of effects -/

theorem initTimers_eq (F fuel e : Nat) (osc : (Reg → Nat) → (Reg → Nat)) (regs : Reg → Nat)
    (h : CLKPR_Calibrate F fuel =
      some [Effect.write Reg.CLKPR (1 <<< CLKPCE), Effect.write Reg.CLKPR e]) :
    ∃ m1, initTimers F fuel osc ⟨regs, []⟩ = some m1 ∧
      m1.regs Reg.ADCSRA =
        osc (setReg (setReg regs Reg.CLKPR (1 <<< CLKPCE)) Reg.CLKPR e) Reg.ADCSRA ∧
      m1.trace =
        (let r := osc (setReg (setReg regs Reg.CLKPR (1 <<< CLKPCE)) Reg.CLKPR e)
         let t1 := (r Reg.TCCR0A ||| (1 <<< WGM01)) % 256
         let t2 := (t1 ||| (1 <<< WGM00)) % 256
         let t3 := (t2 ||| (1 <<< CS01)) % 256
         let t4 := (t3 ||| (1 <<< CS00)) % 256
         let t6 := (r Reg.TCCR1B ||| (1 <<< CS11)) % 256
         let t9 := (r Reg.TCCR2A ||| (1 <<< CS22)) % 256
         [Effect.write Reg.CLKPR (1 <<< CLKPCE), Effect.write Reg.CLKPR e,
          Effect.osccal, Effect.sei,
          Effect.write Reg.TCCR0A t1, Effect.write Reg.TCCR0A t2,
          Effect.write Reg.TCCR0A t3, Effect.write Reg.TCCR0A t4,
          Effect.write Reg.TIMSK0 ((r Reg.TIMSK0 ||| (1 <<< TOIE0)) % 256),
          Effect.write Reg.TCCR1B t6, Effect.write Reg.TCCR1B ((t6 ||| (1 <<< CS10)) % 256),
          Effect.write Reg.TCCR1A ((r Reg.TCCR1A ||| (1 <<< WGM10)) % 256),
          Effect.write Reg.TCCR2A t9,
          Effect.write Reg.TCCR2A ((t9 ||| (1 <<< WGM20)) % 256)]) := by
  refine ⟨_, by rw [initTimers, h, Option.map_some'], ?_, ?_⟩
  · simp [runEffects, store, sbi, sei, callOsccal, setReg]
  · simp [runEffects, store, sbi, sei, callOsccal, setReg]

/-- C12: one run of `init` from an empty effect record (the ADC search in
range, a budget of 14 loop tests) yields, in this order: the two stores to
`CLKPR` (the change-enable value, then the chosen exponent), the call of
`OSCCAL_Calibrate`, `sei`, four stores to `TCCR0A` and the store to
`TIMSK0` (timer 0 and its overflow interrupt), the stores to `TCCR1B`,
`TCCR1A` and `TCCR2A` (timers 1 and 2), then the store of the ADC prescale
computed by the search, the ADC enable, and the store of 0 to `UCSRB`.
`CLKPR` is stored to exactly twice, `OSCCAL_Calibrate` is called exactly
once and `sei` is executed exactly once. -/
theorem init_effect_order (F_CPU fuel : Nat) (osc : (Reg → Nat) → (Reg → Nat))
    (regs : Reg → Nat) (hrange : F_CPU / 2 ^ 14 ≤ 200000) (hfuel : 14 ≤ fuel) :
    ∃ m1 adpsx, init F_CPU fuel osc ⟨regs, []⟩ = some m1 ∧
      CLKPR_exponent F_CPU fuel = some (specExponent F_CPU) ∧
      ADC_search F_CPU fuel 0 = some adpsx ∧
      m1.trace =
        (let e := specExponent F_CPU
         let r := osc (setReg (setReg regs Reg.CLKPR (1 <<< CLKPCE)) Reg.CLKPR e)
         let t1 := (r Reg.TCCR0A ||| (1 <<< WGM01)) % 256
         let t2 := (t1 ||| (1 <<< WGM00)) % 256
         let t3 := (t2 ||| (1 <<< CS01)) % 256
         let t4 := (t3 ||| (1 <<< CS00)) % 256
         let t6 := (r Reg.TCCR1B ||| (1 <<< CS11)) % 256
         let t9 := (r Reg.TCCR2A ||| (1 <<< CS22)) % 256
         let a1 := ADCSRA_prescale (r Reg.ADCSRA) adpsx
         [Effect.write Reg.CLKPR (1 <<< CLKPCE), Effect.write Reg.CLKPR e,
          Effect.osccal, Effect.sei,
          Effect.write Reg.TCCR0A t1, Effect.write Reg.TCCR0A t2,
          Effect.write Reg.TCCR0A t3, Effect.write Reg.TCCR0A t4,
          Effect.write Reg.TIMSK0 ((r Reg.TIMSK0 ||| (1 <<< TOIE0)) % 256),
          Effect.write Reg.TCCR1B t6, Effect.write Reg.TCCR1B ((t6 ||| (1 <<< CS10)) % 256),
          Effect.write Reg.TCCR1A ((r Reg.TCCR1A ||| (1 <<< WGM10)) % 256),
          Effect.write Reg.TCCR2A t9,
          Effect.write Reg.TCCR2A ((t9 ||| (1 <<< WGM20)) % 256),
          Effect.write Reg.ADCSRA a1,
          Effect.write Reg.ADCSRA ((a1 ||| (1 <<< ADEN)) % 256),
          Effect.write Reg.UCSRB 0]) ∧
      writesTo Reg.CLKPR m1.trace = 2 ∧
      m1.trace.count Effect.osccal = 1 ∧
      m1.trace.count Effect.sei = 1 := by
  have hcal : CLKPR_Calibrate F_CPU fuel =
      some [Effect.write Reg.CLKPR (1 <<< CLKPCE),
        Effect.write Reg.CLKPR (specExponent F_CPU)] :=
    CLKPR_Calibrate_eq_spec F_CPU fuel (by omega)
  obtain ⟨adpsx, hadc⟩ := ADC_search_returns F_CPU hrange fuel 0 (by omega) (by omega)
  obtain ⟨m13, hm13, hreg, htr13⟩ := initTimers_eq F_CPU fuel _ osc regs hcal
  obtain ⟨m1, hm1, htr1⟩ := initADC_eq F_CPU fuel adpsx m13 hadc
  have htrace : m1.trace =
        (let e := specExponent F_CPU
         let r := osc (setReg (setReg regs Reg.CLKPR (1 <<< CLKPCE)) Reg.CLKPR e)
         let t1 := (r Reg.TCCR0A ||| (1 <<< WGM01)) % 256
         let t2 := (t1 ||| (1 <<< WGM00)) % 256
         let t3 := (t2 ||| (1 <<< CS01)) % 256
         let t4 := (t3 ||| (1 <<< CS00)) % 256
         let t6 := (r Reg.TCCR1B ||| (1 <<< CS11)) % 256
         let t9 := (r Reg.TCCR2A ||| (1 <<< CS22)) % 256
         let a1 := ADCSRA_prescale (r Reg.ADCSRA) adpsx
         [Effect.write Reg.CLKPR (1 <<< CLKPCE), Effect.write Reg.CLKPR e,
          Effect.osccal, Effect.sei,
          Effect.write Reg.TCCR0A t1, Effect.write Reg.TCCR0A t2,
          Effect.write Reg.TCCR0A t3, Effect.write Reg.TCCR0A t4,
          Effect.write Reg.TIMSK0 ((r Reg.TIMSK0 ||| (1 <<< TOIE0)) % 256),
          Effect.write Reg.TCCR1B t6, Effect.write Reg.TCCR1B ((t6 ||| (1 <<< CS10)) % 256),
          Effect.write Reg.TCCR1A ((r Reg.TCCR1A ||| (1 <<< WGM10)) % 256),
          Effect.write Reg.TCCR2A t9,
          Effect.write Reg.TCCR2A ((t9 ||| (1 <<< WGM20)) % 256),
          Effect.write Reg.ADCSRA a1,
          Effect.write Reg.ADCSRA ((a1 ||| (1 <<< ADEN)) % 256),
          Effect.write Reg.UCSRB 0]) := by
    rw [htr1, htr13, hreg]
    rfl
  refine ⟨m1, adpsx, ?_, CLKPR_exponent_eq_spec F_CPU fuel (by omega), hadc, htrace, ?_, ?_, ?_⟩
  · rw [init, hm13, Option.some_bind, hm1]
  · rw [htrace]
    rfl
  · rw [htrace]
    rfl
  · rw [htrace]
    rfl

theorem init_effect_order_witness :
    (8000000 / 2 ^ 14 ≤ 200000 ∧ 14 ≤ 14) ∧
    ∃ m1 adpsx, init 8000000 14 id ⟨fun _ => 0, []⟩ = some m1 ∧
      CLKPR_exponent 8000000 14 = some (specExponent 8000000) ∧
      ADC_search 8000000 14 0 = some adpsx ∧
      m1.trace =
        (let e := specExponent 8000000
         let r := id (setReg (setReg (fun _ => 0) Reg.CLKPR (1 <<< CLKPCE)) Reg.CLKPR e)
         let t1 := (r Reg.TCCR0A ||| (1 <<< WGM01)) % 256
         let t2 := (t1 ||| (1 <<< WGM00)) % 256
         let t3 := (t2 ||| (1 <<< CS01)) % 256
         let t4 := (t3 ||| (1 <<< CS00)) % 256
         let t6 := (r Reg.TCCR1B ||| (1 <<< CS11)) % 256
         let t9 := (r Reg.TCCR2A ||| (1 <<< CS22)) % 256
         let a1 := ADCSRA_prescale (r Reg.ADCSRA) adpsx
         [Effect.write Reg.CLKPR (1 <<< CLKPCE), Effect.write Reg.CLKPR e,
          Effect.osccal, Effect.sei,
          Effect.write Reg.TCCR0A t1, Effect.write Reg.TCCR0A t2,
          Effect.write Reg.TCCR0A t3, Effect.write Reg.TCCR0A t4,
          Effect.write Reg.TIMSK0 ((r Reg.TIMSK0 ||| (1 <<< TOIE0)) % 256),
          Effect.write Reg.TCCR1B t6, Effect.write Reg.TCCR1B ((t6 ||| (1 <<< CS10)) % 256),
          Effect.write Reg.TCCR1A ((r Reg.TCCR1A ||| (1 <<< WGM10)) % 256),
          Effect.write Reg.TCCR2A t9,
          Effect.write Reg.TCCR2A ((t9 ||| (1 <<< WGM20)) % 256),
          Effect.write Reg.ADCSRA a1,
          Effect.write Reg.ADCSRA ((a1 ||| (1 <<< ADEN)) % 256),
          Effect.write Reg.UCSRB 0]) ∧
      writesTo Reg.CLKPR m1.trace = 2 ∧
      m1.trace.count Effect.osccal = 1 ∧
      m1.trace.count Effect.sei = 1 :=
  ⟨⟨by decide, by decide⟩,
    init_effect_order 8000000 14 id (fun _ => 0) (by decide) (by decide)⟩

/-! ## `CLKPR_Calibrate`: distance from the target -/

theorem prescaleError_val (F k d : Nat) (hd : 8000000 / 2 ^ k = d) :
    prescaleError F k = (d - F) + (F - d) := by
  simp only [prescaleError, hd]
  omega

theorem specExponent_cases (F : Nat) :
    (6000000 < F ∧ specExponent F = 0) ∨
    (3000000 < F ∧ F ≤ 6000000 ∧ specExponent F = 1) ∨
    (1500000 < F ∧ F ≤ 3000000 ∧ specExponent F = 2) ∨
    (750000 < F ∧ F ≤ 1500000 ∧ specExponent F = 3) ∨
    (375000 < F ∧ F ≤ 750000 ∧ specExponent F = 4) ∨
    (187500 < F ∧ F ≤ 375000 ∧ specExponent F = 5) ∨
    (93750 < F ∧ F ≤ 187500 ∧ specExponent F = 6) ∨
    (62500 ≤ F ∧ F ≤ 93750 ∧ specExponent F = 7) ∨
    (F < 62500 ∧ specExponent F = 8) := by
  have hs := specStop_unfold F
  have hdef : specExponent F =
      if 0 < specStop F ∧ specStop F < 8 ∧
        (F : Int) - ((8000000 / 2 ^ specStop F : Nat) : Int)
          > ((8000000 / 2 ^ (specStop F - 1) : Nat) : Int) - (F : Int) then
        specStop F - 1
      else specStop F := rfl
  by_cases h0 : 8000000 ≤ F
  · rw [ if_pos h0] at hs
    rw [hs] at hdef
    norm_num at hdef
    left; exact ⟨by omega, hdef⟩
  by_cases h1 : 4000000 ≤ F
  · rw [if_neg h0, if_pos h1] at hs
    rw [hs] at hdef
    norm_num at hdef
    by_cases hm : (F : Int) - 4000000 > 8000000 - (F : Int)
    · rw [if_pos hm] at hdef
      left; exact ⟨by omega, hdef⟩
    · rw [if_neg hm] at hdef
      right; left; exact ⟨by omega, by omega, hdef⟩
  by_cases h2 : 2000000 ≤ F
  · rw [if_neg h0, if_neg h1, if_pos h2] at hs
    rw [hs] at hdef
    norm_num at hdef
    by_cases hm : (F : Int) - 2000000 > 4000000 - (F : Int)
    · rw [if_pos hm] at hdef
      right; left; exact ⟨by omega, by omega, hdef⟩
    · rw [if_neg hm] at hdef
      right; right; left; exact ⟨by omega, by omega, hdef⟩
  by_cases h3 : 1000000 ≤ F
  · rw [if_neg h0, if_neg h1, if_neg h2, if_pos h3] at hs
    rw [hs] at hdef
    norm_num at hdef
    by_cases hm : (F : Int) - 1000000 > 2000000 - (F : Int)
    · rw [if_pos hm] at hdef
      right; right; left; exact ⟨by omega, by omega, hdef⟩
    · rw [if_neg hm] at hdef
      right; right; right; left; exact ⟨by omega, by omega, hdef⟩
  by_cases h4 : 500000 ≤ F
  · rw [if_neg h0, if_neg h1, if_neg h2, if_neg h3, if_pos h4] at hs
    rw [hs] at hdef
    norm_num at hdef
    by_cases hm : (F : Int) - 500000 > 1000000 - (F : Int)
    · rw [if_pos hm] at hdef
      right; right; right; left; exact ⟨by omega, by omega, hdef⟩
    · rw [if_neg hm] at hdef
      right; right; right; right; left; exact ⟨by omega, by omega, hdef⟩
  by_cases h5 : 250000 ≤ F
  · rw [if_neg h0, if_neg h1, if_neg h2, if_neg h3, if_neg h4, if_pos h5] at hs
    rw [hs] at hdef
    norm_num at hdef
    by_cases hm : (F : Int) - 250000 > 500000 - (F : Int)
    · rw [if_pos hm] at hdef
      right; right; right; right; left; exact ⟨by omega, by omega, hdef⟩
    · rw [if_neg hm] at hdef
      right; right; right; right; right; left; exact ⟨by omega, by omega, hdef⟩
  by_cases h6 : 125000 ≤ F
  · rw [if_neg h0, if_neg h1, if_neg h2, if_neg h3, if_neg h4, if_neg h5, if_pos h6] at hs
    rw [hs] at hdef
    norm_num at hdef
    by_cases hm : (F : Int) - 125000 > 250000 - (F : Int)
    · rw [if_pos hm] at hdef
      right; right; right; right; right; left; exact ⟨by omega, by omega, hdef⟩
    · rw [if_neg hm] at hdef
      right; right; right; right; right; right; left; exact ⟨by omega, by omega, hdef⟩
  by_cases h7 : 62500 ≤ F
  · rw [if_neg h0, if_neg h1, if_neg h2, if_neg h3, if_neg h4, if_neg h5, if_neg h6, if_pos h7] at hs
    rw [hs] at hdef
    norm_num at hdef
    by_cases hm : (F : Int) - 62500 > 125000 - (F : Int)
    · rw [if_pos hm] at hdef
      right; right; right; right; right; right; left; exact ⟨by omega, by omega, hdef⟩
    · rw [if_neg hm] at hdef
      right; right; right; right; right; right; right; left; exact ⟨by omega, by omega, hdef⟩
  rw [if_neg h0, if_neg h1, if_neg h2, if_neg h3, if_neg h4, if_neg h5, if_neg h6, if_neg h7] at hs
  rw [hs] at hdef
  norm_num at hdef
  right; right; right; right; right; right; right; right; exact ⟨by omega, hdef⟩

theorem specExponent_optimal_iff (F : Nat) :
    (∀ k, k ≤ 8 → prescaleError F (specExponent F) ≤ prescaleError F k) ↔
      (F ≤ 46875 ∨ 62500 ≤ F) := by
  have e0 := prescaleError_val F 0 8000000 (by decide)
  have e1 := prescaleError_val F 1 4000000 (by decide)
  have e2 := prescaleError_val F 2 2000000 (by decide)
  have e3 := prescaleError_val F 3 1000000 (by decide)
  have e4 := prescaleError_val F 4 500000 (by decide)
  have e5 := prescaleError_val F 5 250000 (by decide)
  have e6 := prescaleError_val F 6 125000 (by decide)
  have e7 := prescaleError_val F 7 62500 (by decide)
  have e8 := prescaleError_val F 8 31250 (by decide)
  constructor
  · intro h
    have h7 := h 7 (by decide)
    rcases specExponent_cases F with c | c | c | c | c | c | c | c | c
    · omega
    all_goals first
      | (obtain ⟨c1, c2, c3⟩ := c; omega)
      | (obtain ⟨c1, c3⟩ := c
         rw [c3] at h7
         omega)
  · intro h k hk
    rcases specExponent_cases F with c | c | c | c | c | c | c | c | c
    · obtain ⟨c1, c3⟩ := c
      rw [c3]
      interval_cases k <;> omega
    all_goals first
      | (obtain ⟨c1, c2, c3⟩ := c
         rw [c3]
         interval_cases k <;> omega)
      | (obtain ⟨c1, c3⟩ := c
         rw [c3]
         interval_cases k <;> omega)

/-- C11 fails as stated: for the target `F_CPU = 60000` the calibrator
stores exponent 8 (31250 Hz, 28750 Hz off) although exponent 7 (62500 Hz)
is only 2500 Hz off. -/
theorem CLKPR_Calibrate_60000_not_closest :
    0 < 60000 ∧
    CLKPR_Calibrate 60000 9 =
      some [Effect.write Reg.CLKPR 128, Effect.write Reg.CLKPR 8] ∧
    prescaleError 60000 8 = 28750 ∧ prescaleError 60000 7 = 2500 ∧ 7 ≤ 8 ∧
    ¬ (prescaleError 60000 8 ≤ prescaleError 60000 7) := by
  decide

/-- C11 as amended: for every target with `F_CPU ≤ 46875` or
`F_CPU ≥ 62500` the exponent stored by `CLKPR_Calibrate` minimises
`|8000000 / 2^k - F_CPU|` over all exponents `k` in `0..8`. -/
theorem CLKPR_Calibrate_closest_divider (F_CPU fuel : Nat) (hfuel : 9 ≤ fuel)
    (hF : F_CPU ≤ 46875 ∨ 62500 ≤ F_CPU) :
    ∃ e, CLKPR_Calibrate F_CPU fuel =
        some [Effect.write Reg.CLKPR (1 <<< CLKPCE), Effect.write Reg.CLKPR e] ∧
      e ≤ 8 ∧ ∀ k, k ≤ 8 → prescaleError F_CPU e ≤ prescaleError F_CPU k :=
  ⟨specExponent F_CPU, CLKPR_Calibrate_eq_spec F_CPU fuel hfuel, specExponent_le F_CPU,
    (specExponent_optimal_iff F_CPU).2 hF⟩

theorem CLKPR_Calibrate_closest_divider_witness :
    (9 ≤ 9 ∧ (1200000 ≤ 46875 ∨ 62500 ≤ 1200000)) ∧
    ∃ e, CLKPR_Calibrate 1200000 9 =
        some [Effect.write Reg.CLKPR (1 <<< CLKPCE), Effect.write Reg.CLKPR e] ∧
      e ≤ 8 ∧ ∀ k, k ≤ 8 → prescaleError 1200000 e ≤ prescaleError 1200000 k :=
  ⟨⟨by decide, by decide⟩,
    CLKPR_Calibrate_closest_divider 1200000 9 (by decide) (by decide)⟩

end Butteruino
